import Mathlib

/-!
Verification of `src/Monzo_Bridge.py` against its specification.

The Python source is shallowly embedded: pure computations become Lean
functions, the keyring and the in-memory seen-set become explicit state,
HTTP interactions are parameterised by the received response, and Python
exceptions become `Option`/`Except` results.  Python floats (used by the
amount pipeline) are modelled as dyadic rationals `m * 2^e` with explicit
IEEE-754 binary64 round-to-nearest-even, implemented over integer
arithmetic; the inputs at hand stay far inside the normal range, so
overflow and subnormals do not arise.
-/

namespace MonzoBridge

/-! ## Binary64 model (Python `float`)

`LocalAPIClient.post_transaction` (lines 257-277) and `main`
(lines 585-590) manipulate amounts with Python floats.  A float value is
represented as `m * 2^e` (`F64`); rounding a rational `n / d` to binary64
is performed with exact integer arithmetic. -/

/-- A binary64 value `m * 2^e` (not necessarily normalised). -/
structure F64 where
  m : ℤ
  e : ℤ
deriving DecidableEq, Repr

/-- Scale the exact fraction `p / q` (with `q > 0`) into the binade
`[2^52, 2^53)` while tracking the binary exponent `e`; the value
`(p / q) * 2^e` is preserved by each step.  Fuel-bounded so that the
definition is structural; 2200 steps cover the full binary64 range. -/
def normScale : Nat → Nat → Nat → ℤ → Nat × Nat × ℤ
  | 0, p, q, e => (p, q, e)
  | fuel+1, p, q, e =>
    if p < 2 ^ 52 * q then normScale fuel (2 * p) q (e - 1)
    else if 2 ^ 53 * q ≤ p then normScale fuel p (2 * q) (e + 1)
    else (p, q, e)

/-- Round `p / q` (with `q > 0`) to the nearest integer, ties to even:
the IEEE-754 default rounding used by Python float arithmetic. -/
def rndNE (p q : Nat) : Nat :=
  let f := p / q
  let r := p % q
  if 2 * r < q then f
  else if q < 2 * r then f + 1
  else if f % 2 = 0 then f else f + 1

/-- Correctly rounded binary64 value of the rational `n / d` (`d > 0`). -/
def fl64 (n : ℤ) (d : ℤ) : F64 :=
  if n = 0 then ⟨0, 0⟩
  else
    let t := normScale 2200 n.natAbs d.natAbs 0
    let m := rndNE t.1 t.2.1
    if n < 0 then ⟨-(m : ℤ), t.2.2⟩ else ⟨(m : ℤ), t.2.2⟩

/-- Float negation (exact in IEEE-754). -/
def fneg (x : F64) : F64 := ⟨-x.m, x.e⟩

/-- Python `int()` applied to a float: truncation toward zero. -/
def floatToInt (x : F64) : ℤ :=
  if 0 ≤ x.e then x.m * 2 ^ x.e.toNat
  else Int.tdiv x.m (2 ^ (-x.e).toNat)

/-! ## The amount pipeline

`main` lines 585-590:
```
if transaction['amount'] < 0:
    amount = abs(transaction['amount']) / 100.0 * -1
else:
    amount = abs(transaction['amount']) / 100.0
```
`post_transaction` lines 261-270:
```
if amount < 0:
    amount = -amount
elif amount > 0:
    amount = -amount
... "amount": int(amount * 100)
```
-/

/-- `abs(transaction['amount'])` converted to float (CPython converts the
int operand of `/` to a correctly rounded double first). -/
def absAsFloat (a : ℤ) : F64 := fl64 (a.natAbs : ℤ) 1

/-- One IEEE division of the float `x` by `100.0`. -/
def div100 (x : F64) : F64 :=
  if 0 ≤ x.e then fl64 (x.m * 2 ^ x.e.toNat) 100
  else fl64 x.m (100 * 2 ^ (-x.e).toNat)

/-- One IEEE multiplication of the float `x` by `100` (the int `100` is
converted exactly to `100.0`). -/
def mul100 (x : F64) : F64 :=
  if 0 ≤ x.e then fl64 (x.m * 100 * 2 ^ x.e.toNat) 1
  else fl64 (x.m * 100) (2 ^ (-x.e).toNat)

/-- The float bound to `amount` by `main` (lines 585-590) for a source
record with signed minor-unit amount `a`. -/
def mainAmount (a : ℤ) : F64 :=
  if a < 0 then fneg (div100 (absAsFloat a)) else div100 (absAsFloat a)

/-- The sign normalisation at the top of `post_transaction`
(lines 261-266): a negative amount is made positive, a positive one
negative (a float is negative exactly when its significand is). -/
def post_amount_normalize (x : F64) : F64 :=
  if x.m < 0 then fneg x
  else if 0 < x.m then fneg x
  else x

/-- The integer placed in the submitted `"amount"` field
(`int(amount * 100)`, line 270) for a source record with signed
minor-unit amount `a`. -/
def submittedAmount (a : ℤ) : ℤ :=
  floatToInt (mul100 (post_amount_normalize (mainAmount a)))

/-- The binary64 round trip `int(abs(a) / 100.0 * 100)` that the exactness
of the pipeline hinges on. -/
def centsRoundTrip (a : ℤ) : ℤ :=
  floatToInt (mul100 (div100 (absAsFloat a)))

/-! ## Character-list search helpers -/

/-- `needle` is an initial segment of `hay`. -/
def beginsWithChars : List Char → List Char → Bool
  | [], _ => true
  | _ :: _, [] => false
  | c :: cs, d :: ds => c == d && beginsWithChars cs ds

/-- `needle` occurs contiguously somewhere in `hay`. -/
def containsSub (needle : List Char) : List Char → Bool
  | [] => needle.isEmpty
  | c :: cs => beginsWithChars needle (c :: cs) || containsSub needle cs

/-! ## Banking API: `get_accounts` (lines 418-421) -/

/-- An account object from the feed provider. -/
structure Account where
  id : String
  type : String
  description : String
deriving DecidableEq, Repr

/-- The parsed JSON body of a response to `GET /accounts`:
`accounts = none` models a JSON document without an `"accounts"` key
(`.get('accounts', [])` then falls back to the empty list). -/
structure AccountsBody where
  accounts : Option (List Account)
deriving DecidableEq, Repr

/-- A received HTTP response for `get_accounts`: `body = none` models a
body that is not valid JSON, on which `response.json()` raises. -/
structure AccountsResponse where
  status : Nat
  body : Option AccountsBody
deriving DecidableEq, Repr

/-- `get_accounts` (lines 418-421).  The source performs no status-code
check: it goes straight to `response.json().get('accounts', [])`, so the
only raising operation is the JSON parse. -/
def get_accounts (r : AccountsResponse) : Except String (List Account) :=
  match r.body with
  | none => .error "JSONDecodeError"
  | some j => .ok (j.accounts.getD [])

/-! ## Budgeting backend: `LocalAPIClient.login` (lines 228-255) -/

/-- A received HTTP response to the backend login post. -/
structure LoginResponse where
  status : Nat
  text : String
  reason : String
  url : String
deriving DecidableEq, Repr

/-- `response.raise_for_status()` as called by `login` (line 245),
together with `str(e)` of the `requests.HTTPError` it raises: per the
`requests` library it raises only for statuses 400-599, and its message
embeds the status code, the reason phrase and the URL — not the response
body. -/
def raise_for_status_message (r : LoginResponse) : Option String :=
  if 400 ≤ r.status ∧ r.status ≤ 499 then
    some (Nat.repr r.status ++ " Client Error: " ++ r.reason ++
      " for url: " ++ r.url)
  else if 500 ≤ r.status ∧ r.status ≤ 599 then
    some (Nat.repr r.status ++ " Server Error: " ++ r.reason ++
      " for url: " ++ r.url)
  else none

/-- `login` (lines 228-255) applied to the received response: first
component the console lines printed, second component the message of the
raised `Exception` (lines 250-255), or `none` when login completed and
the session cookie was stored (line 247).  The broader
`RequestException` handler also covers transport errors, which carry no
response; only the received-response case is relevant here. -/
def login (r : LoginResponse) : List String × Option String :=
  if r.status ≠ 200 then
    match raise_for_status_message r with
    | some msg =>
      (["Attempting login to Monetr...",
        "Login failed with status " ++ Nat.repr r.status,
        "Response: " ++ r.text,
        "Failed to login to Monetr:",
        "Status code: " ++ Nat.repr r.status,
        "Error: " ++ r.text],
        some ("Monetr login failed: " ++ msg))
    | none =>
      (["Attempting login to Monetr...",
        "Login failed with status " ++ Nat.repr r.status,
        "Response: " ++ r.text,
        "Successfully logged in to Monetr"], none)
  else
    (["Attempting login to Monetr...",
      "Successfully logged in to Monetr"], none)

/-! ## Timestamps

`main` parses `transaction['created']` with
`datetime.strptime(..., '%Y-%m-%dT%H:%M:%S.%fZ')` (lines 601-604) and
`post_transaction` serialises it with
`date.strftime("%Y-%m-%dT%H:%M:%S.000Z")` (line 273). -/

/-- A `datetime.datetime` value. -/
structure PyDateTime where
  year : Nat
  month : Nat
  day : Nat
  hour : Nat
  minute : Nat
  second : Nat
  microsecond : Nat
deriving DecidableEq, Repr

/-- Value of a decimal digit character. -/
def digitVal (c : Char) : Option Nat :=
  if '0' ≤ c ∧ c ≤ '9' then some (c.toNat - '0'.toNat) else none

/-- Greedily consume up to `w` leading digits, returning the value read,
how many digits were consumed, and the rest (the behaviour of
`strptime` numeric directives, which match 1 to `w` digits). -/
def takeDigitsAux : Nat → Nat → Nat → List Char → Nat × Nat × List Char
  | 0, acc, k, cs => (acc, k, cs)
  | w+1, acc, k, cs =>
    match cs with
    | [] => (acc, k, [])
    | c :: cs' =>
      match digitVal c with
      | some d => takeDigitsAux w (10 * acc + d) (k + 1) cs'
      | none => (acc, k, c :: cs')

/-- At least one and at most `w` digits, as matched by a `strptime`
numeric directive; fails when no digit is present. -/
def takeDigits (w : Nat) (cs : List Char) : Option (Nat × Nat × List Char) :=
  let t := takeDigitsAux w 0 0 cs
  if t.2.1 = 0 then none else some t

/-- Consume one expected literal character. -/
def expectChar (c : Char) : List Char → Option (List Char)
  | [] => none
  | d :: ds => if d = c then some ds else none

/-- `(y % 4 == 0 and y % 100 != 0) or y % 400 == 0`. -/
def isLeapYear (y : Nat) : Bool :=
  (y % 4 == 0 && y % 100 != 0) || y % 400 == 0

/-- Number of days of month `mo` of year `y` (the calendar validation
`datetime` applies to its arguments). -/
def daysInMonth (y mo : Nat) : Nat :=
  if mo = 2 then (if isLeapYear y then 29 else 28)
  else if mo = 4 ∨ mo = 6 ∨ mo = 9 ∨ mo = 11 then 30
  else 31

/-- `datetime.strptime(s, '%Y-%m-%dT%H:%M:%S.%fZ')` (lines 601-604):
`%Y` matches 1-4 digits, the other numeric directives 1-2 digits, `%f`
matches 1-6 digits and right-pads them to microseconds, the literal
separators and final `Z` must match, the whole string must be consumed,
and the fields must form a valid `datetime`; otherwise `ValueError` is
raised (`none`). -/
def strptimeCreated (s : String) : Option PyDateTime :=
  match takeDigits 4 s.data with
  | none => none
  | some (y, _, r₁) =>
  match expectChar '-' r₁ with
  | none => none
  | some r₂ =>
  match takeDigits 2 r₂ with
  | none => none
  | some (mo, _, r₃) =>
  match expectChar '-' r₃ with
  | none => none
  | some r₄ =>
  match takeDigits 2 r₄ with
  | none => none
  | some (d, _, r₅) =>
  match expectChar 'T' r₅ with
  | none => none
  | some r₆ =>
  match takeDigits 2 r₆ with
  | none => none
  | some (h, _, r₇) =>
  match expectChar ':' r₇ with
  | none => none
  | some r₈ =>
  match takeDigits 2 r₈ with
  | none => none
  | some (mi, _, r₉) =>
  match expectChar ':' r₉ with
  | none => none
  | some r₁₀ =>
  match takeDigits 2 r₁₀ with
  | none => none
  | some (sec, _, r₁₁) =>
  match expectChar '.' r₁₁ with
  | none => none
  | some r₁₂ =>
  match takeDigits 6 r₁₂ with
  | none => none
  | some (f, k, r₁₃) =>
  match expectChar 'Z' r₁₃ with
  | none => none
  | some r₁₄ =>
  if r₁₄ = [] ∧ 1 ≤ y ∧ y ≤ 9999 ∧ 1 ≤ mo ∧ mo ≤ 12 ∧
      1 ≤ d ∧ d ≤ daysInMonth y mo ∧ h ≤ 23 ∧ mi ≤ 59 ∧ sec ≤ 59 then
    some ⟨y, mo, d, h, mi, sec, f * 10 ^ (6 - k)⟩
  else none

/-- Zero-pad the decimal representation of `n` to width `w`
(`strftime` zero-padded numeric directives). -/
def padZ (w n : Nat) : String :=
  ⟨List.replicate (w - (Nat.repr n).length) '0' ++ (Nat.repr n).data⟩

/-- `date.strftime("%Y-%m-%dT%H:%M:%S.000Z")` (line 273): the
milliseconds are the literal `000`; the microsecond field of the
datetime is never consulted. -/
def post_transaction_date (t : PyDateTime) : String :=
  padZ 4 t.year ++ "-" ++ padZ 2 t.month ++ "-" ++ padZ 2 t.day ++ "T" ++
    padZ 2 t.hour ++ ":" ++ padZ 2 t.minute ++ ":" ++ padZ 2 t.second ++
    ".000Z"

/-! ## Transaction records -/

/-- An expanded merchant object. -/
structure Merchant where
  name : Option String
  emoji : Option String
  category : Option String
deriving DecidableEq, Repr

/-- A transaction record from the feed.  `merchant = none` models a
missing key, a `null` value, or an empty object — all falsy in Python;
`name`/`description = none` model a missing key or `null`. -/
structure Tx where
  id : String
  amount : ℤ
  merchant : Option Merchant
  description : Option String
  created : String
  settled : Bool
deriving DecidableEq, Repr

/-- Display-name resolution (`main` lines 593-598): Python truthiness
makes `merchant.get('name')` falsy for a missing key, `null`, or the
empty string, in which case `transaction.get('description', 'Unknown')`
is used — the literal `'Unknown'` only when the `description` key is
absent. -/
def resolve_display_name (t : Tx) : String :=
  match t.merchant with
  | some m =>
    match m.name with
    | some n => if n ≠ "" then n else t.description.getD "Unknown"
    | none => t.description.getD "Unknown"
  | none => t.description.getD "Unknown"

/-! ## `get_transactions` (lines 423-450) -/

/-- The parsed JSON body of a transactions response;
`transactions = none` models a document without a `"transactions"` key. -/
structure TransactionsBody where
  transactions : Option (List Tx)
deriving DecidableEq, Repr

/-- The observable outcome of `requests.get` on the transactions URL:
either the request raised, or a response arrived, whose body is `none`
when not valid JSON. -/
inductive FetchOutcome
  | netError
  | response (status : Nat) (body : Option TransactionsBody)
deriving DecidableEq, Repr

/-- Insert `t` after every element with `created ≥ t.created`: the
stable descending order produced by
`sorted(transactions, key=lambda x: x['created'], reverse=True)`. -/
def insertByCreatedDesc (t : Tx) : List Tx → List Tx
  | [] => [t]
  | u :: us =>
    if u.created < t.created then t :: u :: us
    else u :: insertByCreatedDesc t us

/-- Stable sort by `created`, newest first (line 444). -/
def sortByCreatedDesc (l : List Tx) : List Tx :=
  l.foldl (fun acc t => insertByCreatedDesc t acc) []

/-- The `try` block of `get_transactions` (lines 437-446), raising
operations made explicit: the request itself, `raise_for_status`
(which per the `requests` library raises only for statuses 400-599),
and `response.json()`. -/
def get_transactions_attempt (r : FetchOutcome) : Except String (List Tx) :=
  match r with
  | .netError => .error "RequestException"
  | .response s body =>
    if 400 ≤ s ∧ s ≤ 599 then .error "HTTPError"
    else
      match body with
      | none => .error "JSONDecodeError"
      | some b => .ok (sortByCreatedDesc (b.transactions.getD []))

/-- `get_transactions`: any exception from the `try` block is swallowed
and the empty list returned (lines 447-450). -/
def get_transactions (r : FetchOutcome) : List Tx :=
  match get_transactions_attempt r with
  | .ok l => l
  | .error _ => []

/-! ## The monitoring loop (`main` lines 563-629) -/

/-- A feed transaction paired with the outcome its backend post would
have (`true` = `post_transaction` returns, `false` = it raises). -/
abbrev TxAttempt := Tx × Bool

/-- Result of processing the fetched transactions of one cycle:
the ids for which a post was attempted (in order), the updated seen-set,
and whether an exception escaped to the per-cycle handler. -/
structure CycleResult where
  attempts : List String
  seen : List String
  aborted : Bool
deriving DecidableEq, Repr

/-- The `for transaction in transactions` body (lines 582-623) threading
the seen-set: ids already seen are skipped (line 584); otherwise
`datetime.strptime` runs (lines 601-604) — on failure the `ValueError`
escapes the `for` loops into the per-cycle handler, abandoning the rest
of the cycle — then a post is attempted, and exactly on success the id
is added to the seen-set (line 620). -/
def processTxs (seen : List String) : List TxAttempt → CycleResult
  | [] => ⟨[], seen, false⟩
  | (t, ok) :: rest =>
    if t.id ∈ seen then processTxs seen rest
    else
      match strptimeCreated t.created with
      | none => ⟨[], seen, true⟩
      | some _ =>
        ⟨t.id :: (processTxs (if ok then t.id :: seen else seen) rest).attempts,
          (processTxs (if ok then t.id :: seen else seen) rest).seen,
          (processTxs (if ok then t.id :: seen else seen) rest).aborted⟩

/-- An account together with the transactions (and post outcomes) its
per-cycle `get_transactions` fetch yields. -/
structure MonzoAccount where
  type : String
  fetched : List TxAttempt
deriving DecidableEq, Repr

/-- One pass over all accounts (lines 576-623): only accounts of type
`us_partner` are polled; an escaped exception aborts the remaining
accounts of the cycle. -/
def processCycle (seen : List String) : List MonzoAccount → CycleResult
  | [] => ⟨[], seen, false⟩
  | a :: rest =>
    if a.type = "us_partner" then
      if (processTxs seen a.fetched).aborted then processTxs seen a.fetched
      else
        ⟨(processTxs seen a.fetched).attempts ++
            (processCycle (processTxs seen a.fetched).seen rest).attempts,
          (processCycle (processTxs seen a.fetched).seen rest).seen,
          (processCycle (processTxs seen a.fetched).seen rest).aborted⟩
    else processCycle seen rest

/-- The `while True` monitoring loop (lines 574-629): per-cycle
exceptions are caught and the loop continues with the seen-set it
reached.  Returns each cycle's attempted ids and the final seen-set. -/
def runCycles (seen : List String) :
    List (List MonzoAccount) → List (List String) × List String
  | [] => ([], seen)
  | cyc :: rest =>
    ((processCycle seen cyc).attempts ::
        (runCycles (processCycle seen cyc).seen rest).1,
      (runCycles (processCycle seen cyc).seen rest).2)

/-- The startup seed (lines 565-569): the ids of every transaction
currently fetched for the `us_partner` accounts. -/
def seedIds : List MonzoAccount → List String
  | [] => []
  | a :: rest =>
    if a.type = "us_partner" then
      a.fetched.map (fun p => p.1.id) ++ seedIds rest
    else seedIds rest

/-- Every fetched transaction of the list has a parseable `created`
timestamp (the steady-state assumption under which no `ValueError`
aborts a cycle). -/
def allParse (l : List TxAttempt) : Prop :=
  ∀ p ∈ l, (strptimeCreated p.1.created).isSome = true

/-- `allParse` for every polled account of a cycle. -/
def cycleParses (cyc : List MonzoAccount) : Prop :=
  ∀ a ∈ cyc, allParse a.fetched

instance (l : List TxAttempt) : Decidable (allParse l) :=
  inferInstanceAs
    (Decidable (∀ p ∈ l, (strptimeCreated p.1.created).isSome = true))

instance (cyc : List MonzoAccount) : Decidable (cycleParses cyc) :=
  inferInstanceAs (Decidable (∀ a ∈ cyc, allParse a.fetched))

/-! ## Credential store: base64 layer

`encrypt_config`/`decrypt_config` (lines 56-65) call
`base64.b64encode`/`b64decode`; the standard algorithm is modelled on
byte lists. -/

/-- The standard base64 alphabet. -/
def b64alphabet : List Char :=
  "ABCDEFGHIJKLMNOPQRSTUVWXYZabcdefghijklmnopqrstuvwxyz0123456789+/".data

def b64char (i : Nat) : Char := b64alphabet.getD i 'A'

def lookupIdx (c : Char) : List Char → Nat → Option Nat
  | [], _ => none
  | d :: ds, i => if c = d then some i else lookupIdx c ds (i + 1)

def b64val (c : Char) : Option Nat := lookupIdx c b64alphabet 0

/-- `base64.b64encode` on a byte list: three bytes become four alphabet
characters, a final group of one or two bytes is `=`-padded. -/
def b64encode : List Nat → List Char
  | b₁ :: b₂ :: b₃ :: rest =>
    b64char (b₁ / 4) :: b64char (b₁ % 4 * 16 + b₂ / 16) ::
      b64char (b₂ % 16 * 4 + b₃ / 64) :: b64char (b₃ % 64) :: b64encode rest
  | [b₁, b₂] =>
    [b64char (b₁ / 4), b64char (b₁ % 4 * 16 + b₂ / 16),
      b64char (b₂ % 16 * 4), '=']
  | [b₁] => [b64char (b₁ / 4), b64char (b₁ % 4 * 16), '=', '=']
  | [] => []

/-- `base64.b64decode` on well-formed input: four-character groups, `=`
padding only in the final group.  (The Python decoder additionally
discards characters outside the alphabet before grouping; the inputs
that behave differently are corrupt and reach the same `None` through
the JSON layer.) -/
def b64decodeChars : List Char → Option (List Nat)
  | [] => some []
  | c₁ :: c₂ :: c₃ :: c₄ :: rest =>
    (b64val c₁).bind fun v₁ =>
    (b64val c₂).bind fun v₂ =>
    if c₃ = '=' ∧ c₄ = '=' ∧ rest = [] then
      some [v₁ * 4 + v₂ / 16]
    else if c₄ = '=' ∧ rest = [] then
      (b64val c₃).bind fun v₃ =>
      some [v₁ * 4 + v₂ / 16, v₂ % 16 * 16 + v₃ / 4]
    else
      (b64val c₃).bind fun v₃ =>
      (b64val c₄).bind fun v₄ =>
      (b64decodeChars rest).bind fun bs =>
      some ((v₁ * 4 + v₂ / 16) :: (v₂ % 16 * 16 + v₃ / 4) ::
        (v₃ % 4 * 64 + v₄) :: bs)
  | _ => none

/-! ## Credential store: JSON layer

`json.dumps` with its defaults (`ensure_ascii=True`, separators
`', '`/`': '`, dict insertion order) and the part of `json.loads` these
blobs exercise. -/

def hexDigits : List Char := "0123456789abcdef".data

def hexDig (n : Nat) : Char := hexDigits.getD n '0'

/-- A `\uXXXX` escape of a BMP code point (lowercase hex, as CPython
emits). -/
def uEscape (n : Nat) : List Char :=
  ['\\', 'u', hexDig (n / 4096), hexDig (n / 256 % 16), hexDig (n / 16 % 16),
    hexDig (n % 16)]

/-- `json.dumps` escaping of one character with `ensure_ascii=True`:
`"`, `\`, and the short control escapes become two characters, other
code points below 0x20 or above 0x7e become `\uXXXX` (beyond the BMP, a
UTF-16 surrogate pair), printable ASCII is literal. -/
def escChar (c : Char) : List Char :=
  if c = '"' then ['\\', '"']
  else if c = '\\' then ['\\', '\\']
  else if c.toNat = 8 then ['\\', 'b']
  else if c.toNat = 9 then ['\\', 't']
  else if c.toNat = 10 then ['\\', 'n']
  else if c.toNat = 12 then ['\\', 'f']
  else if c.toNat = 13 then ['\\', 'r']
  else if c.toNat < 32 then uEscape c.toNat
  else if c.toNat ≤ 126 then [c]
  else if c.toNat ≤ 65535 then uEscape c.toNat
  else uEscape (55296 + (c.toNat - 65536) / 1024) ++
    uEscape (56320 + (c.toNat - 65536) % 1024)

def escChars : List Char → List Char
  | [] => []
  | c :: cs => escChar c ++ escChars cs

/-- `json.dumps` of a string value. -/
def emitString (s : String) : List Char :=
  '"' :: (escChars s.data ++ ['"'])

/-- `json.dumps` of a string-or-`None` value. -/
def emitOptString : Option String → List Char
  | none => "null".data
  | some s => emitString s

/-- The Monzo credential blob (`setup_monzo_config` lines 184-189,
mutated in place by `save_tokens`): dict keys in insertion order. -/
structure MonzoConfig where
  client_id : String
  client_secret : String
  access_token : Option String
  refresh_token : Option String
deriving DecidableEq, Repr

/-- `json.dumps(config)` for the Monzo blob. -/
def dumpsMonzoConfig (cfg : MonzoConfig) : List Char :=
  "\x7b\"client_id\": ".data ++ emitString cfg.client_id ++
    ", \"client_secret\": ".data ++ emitString cfg.client_secret ++
    ", \"access_token\": ".data ++ emitOptString cfg.access_token ++
    ", \"refresh_token\": ".data ++ emitOptString cfg.refresh_token ++
    "\x7d".data

/-- `encrypt_config` (lines 56-58):
`base64.b64encode(json.dumps(data).encode()).decode()`.  The emitted
JSON is pure ASCII, where UTF-8 encoding is the identity on code
points. -/
def encrypt_config (cfg : MonzoConfig) : String :=
  ⟨b64encode ((dumpsMonzoConfig cfg).map Char.toNat)⟩

def hexVal (c : Char) : Option Nat :=
  if '0' ≤ c ∧ c ≤ '9' then some (c.toNat - 48)
  else if 'a' ≤ c ∧ c ≤ 'f' then some (c.toNat - 87)
  else if 'A' ≤ c ∧ c ≤ 'F' then some (c.toNat - 55)
  else none

def parseHex4 : List Char → Option (Nat × List Char)
  | c₁ :: c₂ :: c₃ :: c₄ :: rest =>
    (hexVal c₁).bind fun v₁ =>
    (hexVal c₂).bind fun v₂ =>
    (hexVal c₃).bind fun v₃ =>
    (hexVal c₄).bind fun v₄ =>
    some (v₁ * 4096 + v₂ * 256 + v₃ * 16 + v₄, rest)
  | _ => none

/-- The two-character escapes accepted by `json.loads`. -/
def escMap (e : Char) : Option Char :=
  if e = '"' then some '"'
  else if e = '\\' then some '\\'
  else if e = '/' then some '/'
  else if e = 'b' then some (Char.ofNat 8)
  else if e = 'f' then some (Char.ofNat 12)
  else if e = 'n' then some (Char.ofNat 10)
  else if e = 'r' then some (Char.ofNat 13)
  else if e = 't' then some (Char.ofNat 9)
  else none

/-- Decode the hex digits of one `\uXXXX` escape (after `\u`), combining
a UTF-16 surrogate pair into one code point.  (CPython additionally
accepts lone surrogates, which `dumps` never produces and Lean
characters cannot represent; they are failures here.) -/
def parseU (cs : List Char) : Option (Nat × List Char) :=
  (parseHex4 cs).bind fun nr =>
  if nr.1 < 55296 ∨ 57344 ≤ nr.1 then some nr
  else if nr.1 < 56320 then
    match nr.2 with
    | '\\' :: 'u' :: cs₄ =>
      (parseHex4 cs₄).bind fun mr =>
      if 56320 ≤ mr.1 ∧ mr.1 ≤ 57343 then
        some (65536 + (nr.1 - 55296) * 1024 + (mr.1 - 56320), mr.2)
      else none
    | _ => none
  else none

/-- Parse the remainder of a JSON string literal (after the opening
quote) as `json.loads` does in strict mode: literal characters at or
above 0x20 other than `"` and `\`, two-character escapes, and `\uXXXX`
escapes.  Fuel-bounded on the number of parsed characters. -/
def parseStrBody : Nat → List Char → Option (List Char × List Char)
  | 0, _ => none
  | _+1, [] => none
  | fuel+1, c :: cs =>
    if c = '"' then some ([], cs)
    else if c = '\\' then
      match cs with
      | [] => none
      | e :: cs₂ =>
        if e = 'u' then
          (parseU cs₂).bind fun nr =>
          (parseStrBody fuel nr.2).bind fun vr =>
          some (Char.ofNat nr.1 :: vr.1, vr.2)
        else
          (escMap e).bind fun d =>
          (parseStrBody fuel cs₂).bind fun vr =>
          some (d :: vr.1, vr.2)
    else if c.toNat < 32 then none
    else
      (parseStrBody fuel cs).bind fun vr =>
      some (c :: vr.1, vr.2)

/-- Consume an expected literal character sequence. -/
def dropLit : List Char → List Char → Option (List Char)
  | [], cs => some cs
  | _ :: _, [] => none
  | l :: ls, c :: cs => if c = l then dropLit ls cs else none

/-- Parse a JSON string literal. -/
def parseString (fuel : Nat) (cs : List Char) :
    Option (String × List Char) :=
  match cs with
  | '"' :: rest =>
    (parseStrBody fuel rest).bind fun vr => some (⟨vr.1⟩, vr.2)
  | _ => none

/-- Parse a JSON string literal or `null`. -/
def parseOptString (fuel : Nat) (cs : List Char) :
    Option (Option String × List Char) :=
  match dropLit "null".data cs with
  | some rest => some (none, rest)
  | none =>
    (parseString fuel cs).bind fun sr => some (some sr.1, sr.2)

/-- `json.loads` specialised to the object shape of these blobs: the
four keys in insertion order with the `dumps` default separators.
CPython's `loads` accepts more JSON documents; every blob produced by
`save_monzo_config` has exactly this shape, and stored data of any
other shape is corrupt, differing only in which step produces the
swallowed failure. -/
def loadsMonzoConfig (cs : List Char) : Option MonzoConfig :=
  (dropLit "\x7b\"client_id\": ".data cs).bind fun r₁ =>
  (parseString cs.length r₁).bind fun p₁ =>
  (dropLit ", \"client_secret\": ".data p₁.2).bind fun r₂ =>
  (parseString cs.length r₂).bind fun p₂ =>
  (dropLit ", \"access_token\": ".data p₂.2).bind fun r₃ =>
  (parseOptString cs.length r₃).bind fun p₃ =>
  (dropLit ", \"refresh_token\": ".data p₃.2).bind fun r₄ =>
  (parseOptString cs.length r₄).bind fun p₄ =>
  (dropLit "\x7d".data p₄.2).bind fun r₅ =>
  if r₅ = [] then some ⟨p₁.1, p₂.1, p₃.1, p₄.1⟩ else none

/-- `decrypt_config` (lines 60-65):
`json.loads(base64.b64decode(encrypted_data).decode())` with every
failure swallowed to `None`.  Byte-to-text decoding is the identity on
code points (the produced blobs are ASCII, where this coincides with
UTF-8). -/
def decrypt_config (s : String) : Option MonzoConfig :=
  (b64decodeChars s.data).bind fun bs => loadsMonzoConfig (bs.map Char.ofNat)

/-! ## Credential store: keyring layer and the auth-code lifecycle -/

/-- The keyring state the bridge uses under the `monzo_bridge_monzo`
service: the `config` entry and the one-shot `auth_code` entry. -/
structure Keyring where
  monzoConfig : Option String
  authCode : Option String
deriving DecidableEq, Repr

/-- `load_monzo_config` (lines 77-85): absent or falsy (empty) stored
data yields `None`; otherwise the blob is decoded, with corruption
swallowed inside `decrypt_config`. -/
def load_monzo_config (kr : Keyring) : Option MonzoConfig :=
  match kr.monzoConfig with
  | none => none
  | some s => if s = "" then none else decrypt_config s

/-- `save_monzo_config` (lines 92-95). -/
def save_monzo_config (cfg : MonzoConfig) (kr : Keyring) : Keyring :=
  { kr with monzoConfig := some (encrypt_config cfg) }

/-- `keyring.delete_password` on the `auth_code` entry: raises
`PasswordDeleteError` when the entry is absent. -/
def delete_password_auth_code (kr : Keyring) : Except String Keyring :=
  match kr.authCode with
  | some _ => .ok { kr with authCode := none }
  | none => .error "PasswordDeleteError"

/-- `clear_auth_code` (lines 347-352): the `PasswordDeleteError` raised
when no code is stored is caught and ignored. -/
def clear_auth_code (kr : Keyring) : Keyring :=
  match delete_password_auth_code kr with
  | .ok kr' => kr'
  | .error _ => kr

/-- A decoded token-endpoint response body (`exchange_auth_code` reads
`access_token`, `refresh_token` and `expires_in`). -/
structure Tokens where
  access_token : String
  refresh_token : String
  expires_in : Nat
deriving DecidableEq, Repr

/-- `save_tokens` (lines 196-202): a missing config makes it a no-op. -/
def save_tokens (a r : String) (kr : Keyring) : Keyring :=
  match load_monzo_config kr with
  | some cfg =>
    save_monzo_config
      { cfg with access_token := some a, refresh_token := some r } kr
  | none => kr

/-- `exchange_auth_code` (lines 354-380), parameterised by the outcome
of the token-endpoint post: `.error` covers a failed request, a non-2xx
status via `raise_for_status`, and a body without the token fields; the
`expiry` computed on line 372 is discarded by the source.  On success
the token pair is persisted and the one-shot code cleared. -/
def exchange_auth_code (kr : Keyring)
    ( _auth_code _client_id _client_secret : String)
    (resp : Except String Tokens) : Except String (String × Keyring) :=
  match load_monzo_config kr with
  | none => .error "Monzo configuration not found"
  | some _ =>
    match resp with
    | .error e => .error e
    | .ok toks =>
      .ok (toks.access_token,
        clear_auth_code (save_tokens toks.access_token toks.refresh_token kr))

end MonzoBridge

namespace MonzoBridge

/-! ## Sanity checks of the float model against CPython -/

theorem fl64_neg_arg (n d : ℤ) : fl64 (-n) d = fneg (fl64 n d) := by
  unfold fl64 fneg
  rcases lt_trichotomy n 0 with h | h | h
  · rw [if_neg (by omega : ¬ -n = 0), if_neg (by omega : n ≠ 0),
      if_neg (by omega : ¬ -n < 0), if_pos h]
    simp [Int.natAbs_neg]
  · subst h; simp
  · rw [if_neg (by omega : ¬ -n = 0), if_neg (by omega : n ≠ 0),
      if_pos (by omega : -n < 0), if_neg (by omega : ¬ n < 0)]
    simp [Int.natAbs_neg]

theorem fneg_fneg (x : F64) : fneg (fneg x) = x := by
  cases x; simp [fneg]

theorem floatToInt_fneg (x : F64) : floatToInt (fneg x) = -floatToInt x := by
  cases x with
  | mk m e =>
    unfold floatToInt fneg
    by_cases h : 0 ≤ e
    · simp [h, neg_mul]
    · simp only [h, if_false]
      exact Int.neg_tdiv m _

theorem mul100_fneg (x : F64) : mul100 (fneg x) = fneg (mul100 x) := by
  cases x with
  | mk m e =>
    unfold mul100 fneg
    by_cases h : 0 ≤ e <;>
      simp only [h, if_true, if_false, neg_mul] <;>
      exact fl64_neg_arg _ _

theorem post_amount_normalize_fneg (y : F64) :
    post_amount_normalize (fneg y) = y := by
  cases y with
  | mk m e =>
    unfold post_amount_normalize fneg
    rcases lt_trichotomy m 0 with h | h | h
    · simp only
      rw [if_neg (by omega : ¬ -m < 0), if_pos (by omega : (0:ℤ) < -m)]
      simp
    · subst h; simp
    · simp only
      rw [if_pos (by omega : -m < (0:ℤ))]
      simp

theorem post_amount_normalize_of_ne (y : F64) (h : y.m ≠ 0) :
    post_amount_normalize y = fneg y := by
  unfold post_amount_normalize
  rcases lt_trichotomy y.m 0 with h1 | h1 | h1
  · rw [if_pos h1]
  · exact absurd h1 h
  · rw [if_neg (by omega), if_pos h1]

theorem floatToInt_mul100_zero (x : F64) (h : x.m = 0) :
    floatToInt (mul100 x) = 0 := by
  cases x with
  | mk m e =>
    simp only at h
    subst h
    unfold mul100
    by_cases he : 0 ≤ e <;>
      simp only [he, if_true, if_false, zero_mul] <;>
      rw [show fl64 0 _ = ⟨0, 0⟩ from rfl] <;>
      rfl

/-- C1, amended.  Whenever the binary64 round trip
`int(abs(a) / 100.0 * 100)` recovers `abs(a)` exactly, the submitted
amount field equals the exact negation of the source record's signed
minor-unit amount. -/
theorem c1_submitted_amount_is_negation (a : ℤ)
    (h : centsRoundTrip a = (a.natAbs : ℤ)) : submittedAmount a = -a := by
  rcases lt_trichotomy a 0 with ha | ha | ha
  · have key : submittedAmount a = centsRoundTrip a := by
      unfold submittedAmount mainAmount centsRoundTrip
      rw [if_pos ha, post_amount_normalize_fneg]
    rw [key, h]
    omega
  · subst ha; rfl
  · by_cases hm : (div100 (absAsFloat a)).m = 0
    · exfalso
      have hz : centsRoundTrip a = 0 := floatToInt_mul100_zero _ hm
      omega
    · have key : submittedAmount a = -(centsRoundTrip a) := by
        unfold submittedAmount mainAmount centsRoundTrip
        rw [if_neg (by omega : ¬ a < 0), post_amount_normalize_of_ne _ hm,
          mul100_fneg, floatToInt_fneg]
      rw [key, h]
      omega

/-- C1, witness: a source debit of 12.34 (signed minor-unit amount 1234
per the claim's own sign convention) yields a backend submission field of
exactly -1234. -/
theorem c1_submitted_amount_witness :
    centsRoundTrip 1234 = ((1234 : ℤ).natAbs : ℤ) ∧
      submittedAmount 1234 = -1234 :=
  ⟨by decide, c1_submitted_amount_is_negation 1234 (by decide)⟩

/-- C1, counterexample: for a source amount of 820 minor units the code
submits -819, not -820: `820 / 100.0` rounds to the binary64 value just
below 8.2, `* 100` lands just below 820, and `int()` truncates to 819 —
one minor unit is lost, refuting "no minor unit lost". -/
theorem c1_counterexample :
    submittedAmount 820 = -819 ∧ submittedAmount 820 ≠ -820 := by
  constructor
  · decide
  · decide

/-! ## Substring lemmas -/

theorem beginsWithChars_append (n t : List Char) :
    beginsWithChars n (n ++ t) = true := by
  induction n with
  | nil => rfl
  | cons c cs ih => simp [beginsWithChars, ih]

theorem containsSub_append_self (n t : List Char) :
    containsSub n (n ++ t) = true := by
  cases n with
  | nil =>
    cases t with
    | nil => rfl
    | cons c cs => simp [containsSub, beginsWithChars]
  | cons c cs =>
    simp [containsSub, beginsWithChars, beginsWithChars_append]

theorem containsSub_mid (p n t : List Char) :
    containsSub n (p ++ (n ++ t)) = true := by
  induction p with
  | nil => simpa using containsSub_append_self n t
  | cons d ds ih =>
    show (beginsWithChars n (d :: (ds ++ (n ++ t))) ||
      containsSub n (ds ++ (n ++ t))) = true
    rw [ih, Bool.or_true]

/-! ## C2: `get_accounts` and non-2xx statuses -/

/-- C2, counterexample: a 401 response whose body is a JSON document
without an `"accounts"` key makes `get_accounts` return the empty list —
a value, not a propagated error — because the source never inspects the
status code. -/
theorem c2_counterexample :
    get_accounts ⟨401, some ⟨none⟩⟩ = .ok ([] : List Account) := rfl

/-- C2, amended: `get_accounts` ignores the response status code
entirely; it propagates an error exactly when the response body is not
valid JSON, and otherwise returns the `accounts` field (defaulting to the
empty list) whatever the status. -/
theorem c2_get_accounts_status_blind :
    (∀ s₁ s₂ b, get_accounts ⟨s₁, b⟩ = get_accounts ⟨s₂, b⟩) ∧
      (∀ r : AccountsResponse,
        (∃ v, get_accounts r = .ok v) ↔ r.body ≠ none) := by
  constructor
  · intro s₁ s₂ b
    cases b <;> rfl
  · intro r
    cases r with
    | mk s b =>
      cases b with
      | none => simp [get_accounts]
      | some j => simp [get_accounts]

/-! ## C3: `login` failure behaviour -/

/-- C3, counterexample.  First: a 302 response is a non-200 response on
which `login` raises nothing at all (`raise_for_status` only raises for
400-599), so the flow continues as a success.  Second: on a 404 the
raised error text embeds the status code but not the response body — the
body only reaches the printed diagnostics. -/
theorem c3_counterexample :
    (login ⟨302, "redirect body", "Found",
        "http://localhost:4000/api/authentication/login"⟩).2 = none ∧
      (login ⟨404, "SENSITIVE-BODY", "Not Found",
          "http://localhost:4000/api/authentication/login"⟩).2 =
        some ("Monetr login failed: 404 Client Error: Not Found for url: " ++
          "http://localhost:4000/api/authentication/login") ∧
      containsSub "SENSITIVE-BODY".data
        ("Monetr login failed: 404 Client Error: Not Found for url: " ++
          "http://localhost:4000/api/authentication/login").data = false := by
  refine ⟨rfl, rfl, ?_⟩
  decide

/-- C3, amended: for responses with status 400-599 the login operation
raises exactly once (no retry) an error whose text embeds the response
status code; the response body appears in the printed diagnostics rather
than in the error text; non-200 statuses outside 400-599 raise nothing. -/
theorem c3_login_raises (r : LoginResponse) (h₄ : 400 ≤ r.status)
    (h₅ : r.status ≤ 599) :
    (∃ msg, (login r).2 = some msg ∧
        containsSub (Nat.repr r.status).data msg.data = true) ∧
      ("Response: " ++ r.text) ∈ (login r).1 := by
  have hne : r.status ≠ 200 := by omega
  by_cases hc : r.status ≤ 499
  · have hmsg : raise_for_status_message r =
        some (Nat.repr r.status ++ " Client Error: " ++ r.reason ++
          " for url: " ++ r.url) := by
      unfold raise_for_status_message
      rw [if_pos ⟨h₄, hc⟩]
    have hlogin : login r =
        (["Attempting login to Monetr...",
          "Login failed with status " ++ Nat.repr r.status,
          "Response: " ++ r.text,
          "Failed to login to Monetr:",
          "Status code: " ++ Nat.repr r.status,
          "Error: " ++ r.text],
          some ("Monetr login failed: " ++ (Nat.repr r.status ++
            " Client Error: " ++ r.reason ++ " for url: " ++ r.url))) := by
      unfold login
      rw [hmsg, if_pos hne]
    rw [hlogin]
    refine ⟨⟨_, rfl, ?_⟩, ?_⟩
    · simp only [String.data_append, List.append_assoc]
      exact containsSub_mid _ _ _
    · simp
  · have hmsg : raise_for_status_message r =
        some (Nat.repr r.status ++ " Server Error: " ++ r.reason ++
          " for url: " ++ r.url) := by
      unfold raise_for_status_message
      rw [if_neg (by omega), if_pos ⟨by omega, h₅⟩]
    have hlogin : login r =
        (["Attempting login to Monetr...",
          "Login failed with status " ++ Nat.repr r.status,
          "Response: " ++ r.text,
          "Failed to login to Monetr:",
          "Status code: " ++ Nat.repr r.status,
          "Error: " ++ r.text],
          some ("Monetr login failed: " ++ (Nat.repr r.status ++
            " Server Error: " ++ r.reason ++ " for url: " ++ r.url))) := by
      unfold login
      rw [hmsg, if_pos hne]
    rw [hlogin]
    refine ⟨⟨_, rfl, ?_⟩, ?_⟩
    · simp only [String.data_append, List.append_assoc]
      exact containsSub_mid _ _ _
    · simp

/-- C3, witness: a concrete 500 response is raised on, with "500" inside
the error text and the body among the printed lines. -/
theorem c3_login_raises_witness :
    (∃ msg, (login ⟨500, "boom", "Internal Server Error", "u"⟩).2 = some msg ∧
        containsSub (Nat.repr (500 : Nat)).data msg.data = true) ∧
      ("Response: " ++ "boom") ∈
        (login ⟨500, "boom", "Internal Server Error", "u"⟩).1 :=
  c3_login_raises ⟨500, "boom", "Internal Server Error", "u"⟩
    (by decide) (by decide)

/-! ## C10: posted date format -/

/-- C10: for every transaction whose `created` timestamp parses, the
serialised date of the backend posting ends in the literal `.000Z`, and
its value does not depend on the parsed microseconds — the fractional
seconds of the source record are discarded. -/
theorem c10_posted_date_millis (s : String) (t : PyDateTime)
    (h : strptimeCreated s = some t) :
    (∃ p, (post_transaction_date t).data = p ++ (".000Z").data) ∧
      post_transaction_date t =
        post_transaction_date
          ⟨t.year, t.month, t.day, t.hour, t.minute, t.second, 0⟩ := by
  constructor
  · exact ⟨_, String.data_append _ _⟩
  · cases t
    rfl

/-- C10, witness: a source timestamp carrying microseconds 987654 parses
to a datetime that is serialised with the literal `.000Z`. -/
theorem c10_posted_date_millis_witness :
    strptimeCreated "2024-06-15T12:30:45.987654Z" =
        some ⟨2024, 6, 15, 12, 30, 45, 987654⟩ ∧
      (∃ p, (post_transaction_date ⟨2024, 6, 15, 12, 30, 45, 987654⟩).data =
          p ++ (".000Z").data) ∧
      post_transaction_date ⟨2024, 6, 15, 12, 30, 45, 987654⟩ =
        post_transaction_date ⟨2024, 6, 15, 12, 30, 45, 0⟩ :=
  ⟨by decide,
    (c10_posted_date_millis "2024-06-15T12:30:45.987654Z"
      ⟨2024, 6, 15, 12, 30, 45, 987654⟩ (by decide)).1,
    (c10_posted_date_millis "2024-06-15T12:30:45.987654Z"
      ⟨2024, 6, 15, 12, 30, 45, 987654⟩ (by decide)).2⟩

/-! ## C5: display-name precedence -/

/-- C5: the display name sent to the backend is the merchant name when a
merchant with a non-empty name is present; otherwise the free-text
description when present; otherwise the literal `"Unknown"`. -/
theorem c5_display_name_precedence (t : Tx) :
    (∀ m n, t.merchant = some m → m.name = some n → n ≠ "" →
        resolve_display_name t = n) ∧
      ((t.merchant.bind Merchant.name).getD "" = "" →
        ∀ d, t.description = some d → resolve_display_name t = d) ∧
      ((t.merchant.bind Merchant.name).getD "" = "" →
        t.description = none → resolve_display_name t = "Unknown") := by
  refine ⟨?_, ?_, ?_⟩
  · intro m n hm hn hne
    simp [resolve_display_name, hm, hn, hne]
  · intro hno d hd
    cases hm : t.merchant with
    | none => simp [resolve_display_name, hm, hd]
    | some m =>
      cases hn : m.name with
      | none => simp [resolve_display_name, hm, hn, hd]
      | some n =>
        have hempty : n = "" := by
          rw [hm] at hno
          simpa [hn] using hno
        simp [resolve_display_name, hm, hn, hempty, hd]
  · intro hno hd
    cases hm : t.merchant with
    | none => simp [resolve_display_name, hm, hd]
    | some m =>
      cases hn : m.name with
      | none => simp [resolve_display_name, hm, hn, hd]
      | some n =>
        have hempty : n = "" := by
          rw [hm] at hno
          simpa [hn] using hno
        simp [resolve_display_name, hm, hn, hempty, hd]

/-- C5, witness: all three precedence tiers at concrete records. -/
theorem c5_display_name_precedence_witness :
    resolve_display_name ⟨"t1", -500, some ⟨some "Cafe", none, none⟩,
        some "card payment", "2024-01-01T10:00:00.000Z", true⟩ = "Cafe" ∧
      resolve_display_name ⟨"t2", 1200, none, some "Refund",
        "2024-01-01T10:00:00.000Z", false⟩ = "Refund" ∧
      resolve_display_name ⟨"t3", 100, none, none,
        "2024-01-01T10:00:00.000Z", false⟩ = "Unknown" :=
  ⟨(c5_display_name_precedence _).1 ⟨some "Cafe", none, none⟩ "Cafe" rfl rfl
      (by decide),
    (c5_display_name_precedence _).2.1 (by decide) "Refund" rfl,
    (c5_display_name_precedence _).2.2 (by decide) rfl⟩

/-! ## C6: fetch errors degrade to an empty list -/

/-- C6, counterexample: a 302 response is a non-2xx status, yet
`get_transactions` neither fails nor returns the empty sequence — the
source's `raise_for_status` raises only for 400-599, so the body's
transaction list is returned. -/
theorem c6_counterexample :
    get_transactions (.response 302 (some ⟨some
        [⟨"tx_1", -500, none, some "Cafe",
          "2024-01-01T10:00:00.000Z", true⟩]⟩)) =
      [⟨"tx_1", -500, none, some "Cafe", "2024-01-01T10:00:00.000Z", true⟩] ∧
      get_transactions (.response 302 (some ⟨some
        [⟨"tx_1", -500, none, some "Cafe",
          "2024-01-01T10:00:00.000Z", true⟩]⟩)) ≠ [] := by
  constructor
  · rfl
  · decide

/-- C6, amended: on a failed request, a 4xx or 5xx status, or a
non-JSON body, `get_transactions` returns the empty list; every error of
the `try` block is swallowed, never propagated.  (Non-2xx statuses
outside 400-599 are processed like successes.) -/
theorem c6_fetch_errors_swallowed :
    get_transactions .netError = [] ∧
      (∀ s b, 400 ≤ s → s ≤ 599 → get_transactions (.response s b) = []) ∧
      (∀ s, get_transactions (.response s none) = []) ∧
      (∀ r e, get_transactions_attempt r = .error e →
        get_transactions r = []) := by
  refine ⟨rfl, ?_, ?_, ?_⟩
  · intro s b h₄ h₅
    simp only [get_transactions, get_transactions_attempt]
    rw [if_pos ⟨h₄, h₅⟩]
  · intro s
    simp only [get_transactions, get_transactions_attempt]
    by_cases h : 400 ≤ s ∧ s ≤ 599
    · rw [if_pos h]
    · rw [if_neg h]
  · intro r e h
    simp only [get_transactions]
    rw [h]

/-- C6, witness: a concrete 500 response with a well-formed body still
yields the empty list. -/
theorem c6_fetch_errors_swallowed_witness :
    get_transactions (.response 500 (some ⟨some
        [⟨"tx_1", -500, none, some "Cafe",
          "2024-01-01T10:00:00.000Z", true⟩]⟩)) = [] :=
  c6_fetch_errors_swallowed.2.1 500
    (some ⟨some [⟨"tx_1", -500, none, some "Cafe",
      "2024-01-01T10:00:00.000Z", true⟩]⟩) (by decide) (by decide)

/-! ## C9: descending order by creation timestamp -/

theorem mem_insertByCreatedDesc (w t : Tx) (l : List Tx)
    (h : w ∈ insertByCreatedDesc t l) : w = t ∨ w ∈ l := by
  induction l with
  | nil => simpa [insertByCreatedDesc] using h
  | cons u us ih =>
    unfold insertByCreatedDesc at h
    by_cases hc : u.created < t.created
    · rw [if_pos hc] at h
      rcases List.mem_cons.1 h with h' | h'
      · exact Or.inl h'
      · exact Or.inr h'
    · rw [if_neg hc] at h
      rcases List.mem_cons.1 h with h' | h'
      · exact Or.inr (h' ▸ List.mem_cons_self u us)
      · rcases ih h' with h'' | h''
        · exact Or.inl h''
        · exact Or.inr (List.mem_cons_of_mem u h'')

theorem sorted_insertByCreatedDesc (t : Tx) (l : List Tx)
    (h : List.Sorted (fun a b : Tx => b.created ≤ a.created) l) :
    List.Sorted (fun a b : Tx => b.created ≤ a.created)
      (insertByCreatedDesc t l) := by
  induction l with
  | nil => simp [insertByCreatedDesc]
  | cons u us ih =>
    rw [List.sorted_cons] at h
    obtain ⟨hu, hus⟩ := h
    unfold insertByCreatedDesc
    by_cases hc : u.created < t.created
    · rw [if_pos hc, List.sorted_cons]
      refine ⟨?_, List.sorted_cons.2 ⟨hu, hus⟩⟩
      intro b hb
      rcases List.mem_cons.1 hb with rfl | hb'
      · exact le_of_lt hc
      · exact le_trans (hu b hb') (le_of_lt hc)
    · rw [if_neg hc, List.sorted_cons]
      refine ⟨?_, ih hus⟩
      intro b hb
      rcases mem_insertByCreatedDesc b t us hb with rfl | hb'
      · exact le_of_not_lt hc
      · exact hu b hb'

theorem sorted_foldl_insert (l : List Tx) :
    ∀ acc, List.Sorted (fun a b : Tx => b.created ≤ a.created) acc →
      List.Sorted (fun a b : Tx => b.created ≤ a.created)
        (l.foldl (fun acc t => insertByCreatedDesc t acc) acc) := by
  induction l with
  | nil => intro acc h; simpa using h
  | cons t ts ih =>
    intro acc h
    exact ih _ (sorted_insertByCreatedDesc t acc h)

theorem sorted_sortByCreatedDesc (l : List Tx) :
    List.Sorted (fun a b : Tx => b.created ≤ a.created)
      (sortByCreatedDesc l) :=
  sorted_foldl_insert l [] (by simp)

/-- C9: whatever `get_transactions` returns is sorted by the `created`
timestamp in descending order (newest first). -/
theorem c9_transactions_sorted (r : FetchOutcome) :
    List.Sorted (fun a b : Tx => b.created ≤ a.created)
      (get_transactions r) := by
  cases hr : get_transactions_attempt r with
  | error e =>
    unfold get_transactions
    rw [hr]
    simp
  | ok l =>
    have : get_transactions r = l := by
      unfold get_transactions
      rw [hr]
    rw [this]
    cases r with
    | netError => simp [get_transactions_attempt] at hr
    | response s body =>
      simp only [get_transactions_attempt] at hr
      by_cases h : 400 ≤ s ∧ s ≤ 599
      · rw [if_pos h] at hr
        exact absurd hr (by simp)
      · rw [if_neg h] at hr
        cases body with
        | none => exact absurd hr (by simp)
        | some b =>
          have hl : sortByCreatedDesc (b.transactions.getD []) = l := by
            simpa using hr
          rw [← hl]
          exact sorted_sortByCreatedDesc _

/-! ## C4: seen-set deduplication

Unfolding equations for `processTxs` and `processCycle`, then the
invariants of the monitoring loop. -/

theorem processTxs_nil (seen : List String) :
    processTxs seen [] = ⟨[], seen, false⟩ := rfl

theorem processTxs_cons_seen (seen : List String) (t : Tx) (ok : Bool)
    (rest : List TxAttempt) (h : t.id ∈ seen) :
    processTxs seen ((t, ok) :: rest) = processTxs seen rest := by
  simp [processTxs, h]

theorem processTxs_cons_noparse (seen : List String) (t : Tx) (ok : Bool)
    (rest : List TxAttempt) (h : t.id ∉ seen)
    (hp : strptimeCreated t.created = none) :
    processTxs seen ((t, ok) :: rest) = ⟨[], seen, true⟩ := by
  simp [processTxs, h, hp]

theorem processTxs_cons_new (seen : List String) (t : Tx) (ok : Bool)
    (rest : List TxAttempt) (h : t.id ∉ seen) (d : PyDateTime)
    (hp : strptimeCreated t.created = some d) :
    processTxs seen ((t, ok) :: rest) =
      ⟨t.id :: (processTxs (if ok then t.id :: seen else seen) rest).attempts,
        (processTxs (if ok then t.id :: seen else seen) rest).seen,
        (processTxs (if ok then t.id :: seen else seen) rest).aborted⟩ := by
  simp [processTxs, h, hp]

theorem allParse_tail {p : TxAttempt} {l : List TxAttempt}
    (h : allParse (p :: l)) : allParse l :=
  fun q hq => h q (List.mem_cons_of_mem _ hq)

theorem allParse_head {p : TxAttempt} {l : List TxAttempt}
    (h : allParse (p :: l)) : ∃ d, strptimeCreated p.1.created = some d := by
  have := h p (List.mem_cons_self _ _)
  rwa [Option.isSome_iff_exists] at this

theorem processTxs_no_attempt_of_seen (l : List TxAttempt) :
    ∀ seen id, id ∈ seen → id ∉ (processTxs seen l).attempts := by
  induction l with
  | nil =>
    intro seen id _h
    simp [processTxs_nil]
  | cons p rest ih =>
    intro seen id hid
    obtain ⟨t, ok⟩ := p
    by_cases hmem : t.id ∈ seen
    · rw [processTxs_cons_seen seen t ok rest hmem]
      exact ih seen id hid
    · cases hp : strptimeCreated t.created with
      | none =>
        rw [processTxs_cons_noparse seen t ok rest hmem hp]
        simp
      | some d =>
        rw [processTxs_cons_new seen t ok rest hmem d hp]
        simp only [List.mem_cons, not_or]
        constructor
        · intro heq
          exact hmem (heq ▸ hid)
        · apply ih
          cases ok
          · simpa using hid
          · simpa using Or.inr hid

theorem processTxs_seen_mono (l : List TxAttempt) :
    ∀ seen id, id ∈ seen → id ∈ (processTxs seen l).seen := by
  induction l with
  | nil =>
    intro seen id h
    simpa [processTxs_nil] using h
  | cons p rest ih =>
    intro seen id hid
    obtain ⟨t, ok⟩ := p
    by_cases hmem : t.id ∈ seen
    · rw [processTxs_cons_seen seen t ok rest hmem]
      exact ih seen id hid
    · cases hp : strptimeCreated t.created with
      | none =>
        rw [processTxs_cons_noparse seen t ok rest hmem hp]
        simpa using hid
      | some d =>
        rw [processTxs_cons_new seen t ok rest hmem d hp]
        apply ih
        cases ok
        · simpa using hid
        · simpa using Or.inr hid

theorem processTxs_not_aborted (l : List TxAttempt) :
    ∀ seen, allParse l → (processTxs seen l).aborted = false := by
  induction l with
  | nil =>
    intro seen _
    simp [processTxs_nil]
  | cons p rest ih =>
    intro seen hparse
    obtain ⟨t, ok⟩ := p
    by_cases hmem : t.id ∈ seen
    · rw [processTxs_cons_seen seen t ok rest hmem]
      exact ih seen (allParse_tail hparse)
    · obtain ⟨d, hd⟩ := allParse_head hparse
      rw [processTxs_cons_new seen t ok rest hmem d hd]
      exact ih _ (allParse_tail hparse)

theorem processTxs_seen_iff (l : List TxAttempt) :
    ∀ seen id, allParse l →
      (id ∈ (processTxs seen l).seen ↔
        id ∈ seen ∨ ∃ p ∈ l, p.1.id = id ∧ p.2 = true) := by
  induction l with
  | nil =>
    intro seen id _
    simp [processTxs_nil]
  | cons p rest ih =>
    intro seen id hparse
    obtain ⟨t, ok⟩ := p
    have hrest : allParse rest := allParse_tail hparse
    by_cases hmem : t.id ∈ seen
    · rw [processTxs_cons_seen seen t ok rest hmem, ih seen id hrest]
      simp only [List.exists_mem_cons_iff]
      constructor
      · rintro (h | h)
        · exact Or.inl h
        · exact Or.inr (Or.inr h)
      · rintro (h | ⟨hqid, _⟩ | h)
        · exact Or.inl h
        · exact Or.inl (hqid ▸ hmem)
        · exact Or.inr h
    · obtain ⟨d, hd⟩ := allParse_head hparse
      rw [processTxs_cons_new seen t ok rest hmem d hd]
      have hgoal :
          (id ∈ (processTxs (if ok then t.id :: seen else seen) rest).seen ↔
            id ∈ (if ok then t.id :: seen else seen) ∨
              ∃ p ∈ rest, p.1.id = id ∧ p.2 = true) :=
        ih _ id hrest
      rw [show (⟨t.id ::
            (processTxs (if ok then t.id :: seen else seen) rest).attempts,
          (processTxs (if ok then t.id :: seen else seen) rest).seen,
          (processTxs (if ok then t.id :: seen else seen) rest).aborted⟩ :
            CycleResult).seen =
          (processTxs (if ok then t.id :: seen else seen) rest).seen from rfl]
      rw [hgoal]
      simp only [List.exists_mem_cons_iff]
      cases ok
      · simp only [if_neg (by decide : ¬ (false = true))]
        constructor
        · rintro (h | h)
          · exact Or.inl h
          · exact Or.inr (Or.inr h)
        · rintro (h | ⟨_, hfalse⟩ | h)
          · exact Or.inl h
          · exact absurd hfalse (by decide)
          · exact Or.inr h
      · rw [show (if (true : Bool) = true then t.id :: seen else seen) =
            t.id :: seen from rfl]
        simp only [List.mem_cons]
        constructor
        · rintro ((h | h) | h)
          · refine Or.inr (Or.inl ⟨h.symm, ?_⟩)
            simp
          · exact Or.inl h
          · exact Or.inr (Or.inr h)
        · rintro (h | ⟨hqid, _⟩ | h)
          · exact Or.inl (Or.inr h)
          · exact Or.inl (Or.inl hqid.symm)
          · exact Or.inr h

theorem processTxs_attempts_unseen (l : List TxAttempt) :
    ∀ seen, allParse l → ∀ p ∈ l, p.1.id ∉ seen →
      p.1.id ∈ (processTxs seen l).attempts := by
  induction l with
  | nil =>
    intro seen _ p hp
    exact absurd hp (List.not_mem_nil p)
  | cons q rest ih =>
    intro seen hparse p hp hunseen
    obtain ⟨t, ok⟩ := q
    by_cases hmem : t.id ∈ seen
    · rw [processTxs_cons_seen seen t ok rest hmem]
      rcases List.mem_cons.1 hp with rfl | hp'
      · exact absurd hmem hunseen
      · exact ih seen (allParse_tail hparse) p hp' hunseen
    · obtain ⟨d, hd⟩ := allParse_head hparse
      rw [processTxs_cons_new seen t ok rest hmem d hd]
      rcases List.mem_cons.1 hp with rfl | hp'
      · exact List.mem_cons_self _ _
      · by_cases hid : p.1.id = t.id
        · rw [hid]
          exact List.mem_cons_self _ _
        · apply List.mem_cons_of_mem
          apply ih _ (allParse_tail hparse) p hp'
          cases ok
          · simpa using hunseen
          · rw [show (if (true : Bool) = true then t.id :: seen else seen) =
                t.id :: seen from rfl]
            simp only [List.mem_cons, not_or]
            exact ⟨hid, hunseen⟩

theorem processCycle_nil (seen : List String) :
    processCycle seen [] = ⟨[], seen, false⟩ := rfl

theorem processCycle_cons_skip (seen : List String) (a : MonzoAccount)
    (rest : List MonzoAccount) (h : a.type ≠ "us_partner") :
    processCycle seen (a :: rest) = processCycle seen rest := by
  simp [processCycle, h]

theorem processCycle_cons_partner (seen : List String) (a : MonzoAccount)
    (rest : List MonzoAccount) (h : a.type = "us_partner")
    (hna : (processTxs seen a.fetched).aborted = false) :
    processCycle seen (a :: rest) =
      ⟨(processTxs seen a.fetched).attempts ++
          (processCycle (processTxs seen a.fetched).seen rest).attempts,
        (processCycle (processTxs seen a.fetched).seen rest).seen,
        (processCycle (processTxs seen a.fetched).seen rest).aborted⟩ := by
  simp [processCycle, h, hna]

theorem processCycle_cons_abort (seen : List String) (a : MonzoAccount)
    (rest : List MonzoAccount) (h : a.type = "us_partner")
    (hab : (processTxs seen a.fetched).aborted = true) :
    processCycle seen (a :: rest) = processTxs seen a.fetched := by
  simp [processCycle, h, hab]

theorem cycleParses_tail {a : MonzoAccount} {rest : List MonzoAccount}
    (h : cycleParses (a :: rest)) : cycleParses rest :=
  fun b hb => h b (List.mem_cons_of_mem _ hb)

theorem cycleParses_head {a : MonzoAccount} {rest : List MonzoAccount}
    (h : cycleParses (a :: rest)) : allParse a.fetched :=
  h a (List.mem_cons_self _ _)

theorem processCycle_no_attempt_of_seen (cyc : List MonzoAccount) :
    ∀ seen id, id ∈ seen → id ∉ (processCycle seen cyc).attempts := by
  induction cyc with
  | nil =>
    intro seen id _h
    simp [processCycle_nil]
  | cons a rest ih =>
    intro seen id hid
    by_cases ht : a.type = "us_partner"
    · cases hab : (processTxs seen a.fetched).aborted with
      | true =>
        rw [processCycle_cons_abort seen a rest ht hab]
        exact processTxs_no_attempt_of_seen a.fetched seen id hid
      | false =>
        rw [processCycle_cons_partner seen a rest ht hab]
        simp only [List.mem_append, not_or]
        exact ⟨processTxs_no_attempt_of_seen a.fetched seen id hid,
          ih _ id (processTxs_seen_mono a.fetched seen id hid)⟩
    · rw [processCycle_cons_skip seen a rest ht]
      exact ih seen id hid

theorem processCycle_seen_mono (cyc : List MonzoAccount) :
    ∀ seen id, id ∈ seen → id ∈ (processCycle seen cyc).seen := by
  induction cyc with
  | nil =>
    intro seen id h
    simpa [processCycle_nil] using h
  | cons a rest ih =>
    intro seen id hid
    by_cases ht : a.type = "us_partner"
    · cases hab : (processTxs seen a.fetched).aborted with
      | true =>
        rw [processCycle_cons_abort seen a rest ht hab]
        exact processTxs_seen_mono a.fetched seen id hid
      | false =>
        rw [processCycle_cons_partner seen a rest ht hab]
        exact ih _ id (processTxs_seen_mono a.fetched seen id hid)
    · rw [processCycle_cons_skip seen a rest ht]
      exact ih seen id hid

theorem processCycle_seen_iff (cyc : List MonzoAccount) :
    ∀ seen id, cycleParses cyc →
      (id ∈ (processCycle seen cyc).seen ↔
        id ∈ seen ∨ ∃ a ∈ cyc, a.type = "us_partner" ∧
          ∃ p ∈ a.fetched, p.1.id = id ∧ p.2 = true) := by
  induction cyc with
  | nil =>
    intro seen id _
    simp [processCycle_nil]
  | cons a rest ih =>
    intro seen id hparse
    by_cases ht : a.type = "us_partner"
    · have hna : (processTxs seen a.fetched).aborted = false :=
        processTxs_not_aborted a.fetched seen (cycleParses_head hparse)
      rw [processCycle_cons_partner seen a rest ht hna]
      rw [show (⟨(processTxs seen a.fetched).attempts ++
            (processCycle (processTxs seen a.fetched).seen rest).attempts,
          (processCycle (processTxs seen a.fetched).seen rest).seen,
          (processCycle (processTxs seen a.fetched).seen rest).aborted⟩ :
            CycleResult).seen =
          (processCycle (processTxs seen a.fetched).seen rest).seen from rfl]
      rw [ih _ id (cycleParses_tail hparse)]
      rw [processTxs_seen_iff a.fetched seen id (cycleParses_head hparse)]
      simp only [List.exists_mem_cons_iff]
      constructor
      · rintro ((h | h) | h)
        · exact Or.inl h
        · exact Or.inr (Or.inl ⟨ht, h⟩)
        · exact Or.inr (Or.inr h)
      · rintro (h | ⟨_, h⟩ | h)
        · exact Or.inl (Or.inl h)
        · exact Or.inl (Or.inr h)
        · exact Or.inr h
    · rw [processCycle_cons_skip seen a rest ht]
      rw [ih seen id (cycleParses_tail hparse)]
      simp only [List.exists_mem_cons_iff]
      constructor
      · rintro (h | h)
        · exact Or.inl h
        · exact Or.inr (Or.inr h)
      · rintro (h | ⟨hty, _⟩ | h)
        · exact Or.inl h
        · exact absurd hty ht
        · exact Or.inr h

theorem processCycle_attempts_unseen (cyc : List MonzoAccount) :
    ∀ seen id, cycleParses cyc → id ∉ seen →
      (∃ a ∈ cyc, a.type = "us_partner" ∧ ∃ p ∈ a.fetched, p.1.id = id) →
      id ∈ (processCycle seen cyc).attempts := by
  induction cyc with
  | nil =>
    intro seen id _ _ hex
    simp at hex
  | cons a rest ih =>
    intro seen id hparse hunseen hex
    by_cases ht : a.type = "us_partner"
    · have hna : (processTxs seen a.fetched).aborted = false :=
        processTxs_not_aborted a.fetched seen (cycleParses_head hparse)
      rw [processCycle_cons_partner seen a rest ht hna]
      simp only [List.mem_append]
      obtain ⟨b, hb, hbty, hbex⟩ := hex
      rcases List.mem_cons.1 hb with rfl | hb'
      · obtain ⟨p, hp, hpid⟩ := hbex
        left
        have := processTxs_attempts_unseen b.fetched seen
          (cycleParses_head hparse) p hp (hpid ▸ hunseen)
        exact hpid ▸ this
      · by_cases hmid : id ∈ (processTxs seen a.fetched).seen
        · left
          rcases (processTxs_seen_iff a.fetched seen id
              (cycleParses_head hparse)).1 hmid with h | ⟨p, hp, hpid, _⟩
          · exact absurd h hunseen
          · have := processTxs_attempts_unseen a.fetched seen
              (cycleParses_head hparse) p hp (hpid ▸ hunseen)
            exact hpid ▸ this
        · right
          exact ih _ id (cycleParses_tail hparse) hmid ⟨b, hb', hbty, hbex⟩
    · rw [processCycle_cons_skip seen a rest ht]
      obtain ⟨b, hb, hbty, hbex⟩ := hex
      rcases List.mem_cons.1 hb with rfl | hb'
      · exact absurd hbty ht
      · exact ih seen id (cycleParses_tail hparse) hunseen ⟨b, hb', hbty, hbex⟩

theorem runCycles_no_attempt_of_seen (cycles : List (List MonzoAccount)) :
    ∀ seen id, id ∈ seen →
      ∀ att ∈ (runCycles seen cycles).1, id ∉ att := by
  induction cycles with
  | nil =>
    intro seen id _ att hatt
    simp [runCycles] at hatt
  | cons cyc rest ih =>
    intro seen id hid att hatt
    rcases List.mem_cons.1 hatt with rfl | hatt'
    · exact processCycle_no_attempt_of_seen cyc seen id hid
    · exact ih _ id (processCycle_seen_mono cyc seen id hid) att hatt'

theorem runCycles_seen_iff (cycles : List (List MonzoAccount)) :
    ∀ seen id, (∀ cyc ∈ cycles, cycleParses cyc) →
      (id ∈ (runCycles seen cycles).2 ↔
        id ∈ seen ∨ ∃ cyc ∈ cycles, ∃ a ∈ cyc, a.type = "us_partner" ∧
          ∃ p ∈ a.fetched, p.1.id = id ∧ p.2 = true) := by
  induction cycles with
  | nil =>
    intro seen id _
    simp [runCycles]
  | cons cyc rest ih =>
    intro seen id hparse
    have hhead : cycleParses cyc := hparse cyc (List.mem_cons_self _ _)
    have htail : ∀ c ∈ rest, cycleParses c :=
      fun c hc => hparse c (List.mem_cons_of_mem _ hc)
    rw [show (runCycles seen (cyc :: rest)).2 =
        (runCycles (processCycle seen cyc).seen rest).2 from rfl]
    rw [ih _ id htail, processCycle_seen_iff cyc seen id hhead]
    simp only [List.exists_mem_cons_iff]
    constructor
    · rintro ((h | h) | h)
      · exact Or.inl h
      · exact Or.inr (Or.inl h)
      · exact Or.inr (Or.inr h)
    · rintro (h | h | h)
      · exact Or.inl (Or.inl h)
      · exact Or.inl (Or.inr h)
      · exact Or.inr h

/-- C4: (i) an id in the seen-set — in particular every id of the
startup seed — is never posted in any cycle; (ii) after any run, an id
is in the seen-set exactly when it started there or some post for it
succeeded; (iii) an unseen transaction appearing in a cycle gets a post
attempt that cycle; (iv) a transaction all of whose posts failed in one
cycle and which reappears in the next cycle is attempted again.
Hypotheses `cycleParses`/`allParse` state that the fetched `created`
timestamps parse, so no `ValueError` aborts a cycle. -/
theorem c4_seen_set_dedup :
    (∀ accounts cycles id, id ∈ seedIds accounts →
        ∀ att ∈ (runCycles (seedIds accounts) cycles).1, id ∉ att) ∧
      (∀ seen cycles id, (∀ cyc ∈ cycles, cycleParses cyc) →
        (id ∈ (runCycles seen cycles).2 ↔
          id ∈ seen ∨ ∃ cyc ∈ cycles, ∃ a ∈ cyc, a.type = "us_partner" ∧
            ∃ p ∈ a.fetched, p.1.id = id ∧ p.2 = true)) ∧
      (∀ seen cyc id, cycleParses cyc → id ∉ seen →
        (∃ a ∈ cyc, a.type = "us_partner" ∧ ∃ p ∈ a.fetched, p.1.id = id) →
        id ∈ (processCycle seen cyc).attempts) ∧
      (∀ seen c₁ c₂ id, cycleParses c₁ → cycleParses c₂ → id ∉ seen →
        (∀ a ∈ c₁, ∀ p ∈ a.fetched, p.1.id = id → p.2 = false) →
        (∃ a ∈ c₂, a.type = "us_partner" ∧ ∃ p ∈ a.fetched, p.1.id = id) →
        id ∈ (processCycle (processCycle seen c₁).seen c₂).attempts) := by
  refine ⟨?_, ?_, ?_, ?_⟩
  · intro accounts cycles id hid att hatt
    exact runCycles_no_attempt_of_seen cycles (seedIds accounts) id hid att hatt
  · intro seen cycles id hparse
    exact runCycles_seen_iff cycles seen id hparse
  · intro seen cyc id hparse hunseen hex
    exact processCycle_attempts_unseen cyc seen id hparse hunseen hex
  · intro seen c₁ c₂ id hp₁ hp₂ hunseen hfail hex
    apply processCycle_attempts_unseen c₂ _ id hp₂ _ hex
    intro hmem
    rcases (processCycle_seen_iff c₁ seen id hp₁).1 hmem with h | h
    · exact hunseen h
    · obtain ⟨a, ha, _, p, hp, hpid, hpok⟩ := h
      have := hfail a ha p hp hpid
      rw [this] at hpok
      exact absurd hpok (by decide)

/-- C4, witness: with seed `{tx1}`, a cycle fetching an unseen `tx2`
whose post fails leads to a post attempt for `tx2`. -/
theorem c4_seen_set_dedup_witness :
    "tx2" ∈ (processCycle ["tx1"]
      [⟨"us_partner",
        [(⟨"tx2", 1200, none, some "Refund",
          "2024-01-01T10:00:00.000Z", false⟩, false)]⟩]).attempts :=
  c4_seen_set_dedup.2.2.1 ["tx1"]
    [⟨"us_partner",
      [(⟨"tx2", 1200, none, some "Refund",
        "2024-01-01T10:00:00.000Z", false⟩, false)]⟩] "tx2"
    (by decide) (by decide) (by decide)

/-! ## C8: base64 round trip -/

theorem b64val_b64char : ∀ i < 64, b64val (b64char i) = some i := by decide

theorem b64char_ne_pad_lt : ∀ i < 64, b64char i ≠ '=' := by decide

theorem b64char_ne_pad (i : Nat) : b64char i ≠ '=' := by
  by_cases h : i < 64
  · exact b64char_ne_pad_lt i h
  · unfold b64char
    rw [List.getD_eq_default]
    · decide
    · simpa [b64alphabet] using not_lt.1 h

theorem b64_roundtrip (bs : List Nat) (h : ∀ b ∈ bs, b < 256) :
    b64decodeChars (b64encode bs) = some bs := by
  induction bs using b64encode.induct with
  | case1 b₁ b₂ b₃ rest ih =>
    have hb₁ : b₁ < 256 := h _ (by simp)
    have hb₂ : b₂ < 256 := h _ (by simp)
    have hb₃ : b₃ < 256 := h _ (by simp)
    have hrest : ∀ b ∈ rest, b < 256 := fun b hb => h b (by simp [hb])
    show b64decodeChars (b64char (b₁ / 4) :: b64char (b₁ % 4 * 16 + b₂ / 16)
        :: b64char (b₂ % 16 * 4 + b₃ / 64) :: b64char (b₃ % 64)
        :: b64encode rest) = some (b₁ :: b₂ :: b₃ :: rest)
    rw [b64decodeChars, b64val_b64char _ (by omega), b64val_b64char _ (by omega)]
    simp only [Option.some_bind]
    rw [if_neg (fun hcon => b64char_ne_pad _ hcon.1),
      if_neg (fun hcon => b64char_ne_pad _ hcon.1),
      b64val_b64char _ (by omega), b64val_b64char _ (by omega), ih hrest]
    simp only [Option.some_bind, Option.some.injEq, List.cons.injEq,
      eq_self_iff_true, and_true]
    try omega
  | case2 b₁ b₂ =>
    have hb₁ : b₁ < 256 := h _ (by simp)
    have hb₂ : b₂ < 256 := h _ (by simp)
    show b64decodeChars (b64char (b₁ / 4) :: b64char (b₁ % 4 * 16 + b₂ / 16)
        :: b64char (b₂ % 16 * 4) :: '=' :: []) = some [b₁, b₂]
    rw [b64decodeChars, b64val_b64char _ (by omega), b64val_b64char _ (by omega)]
    simp only [Option.some_bind]
    rw [if_neg (fun hcon => b64char_ne_pad _ hcon.1), if_pos (by simp),
      b64val_b64char _ (by omega)]
    simp only [Option.some_bind, Option.some.injEq, List.cons.injEq,
      eq_self_iff_true, and_true]
    try omega
  | case3 b₁ =>
    have hb₁ : b₁ < 256 := h _ (by simp)
    show b64decodeChars (b64char (b₁ / 4) :: b64char (b₁ % 4 * 16)
        :: '=' :: '=' :: []) = some [b₁]
    rw [b64decodeChars, b64val_b64char _ (by omega), b64val_b64char _ (by omega)]
    simp only [Option.some_bind]
    rw [if_pos (by simp)]
    simp only [Option.some.injEq, List.cons.injEq, eq_self_iff_true, and_true]
    try omega
  | case4 => rfl

/-! ## C8: JSON string escape round trip -/

theorem hexVal_hexDig : ∀ i < 16, hexVal (hexDig i) = some i := by decide

theorem parseHex4_digits (n : Nat) (hn : n < 65536) (tail : List Char) :
    parseHex4 (hexDig (n / 4096) :: hexDig (n / 256 % 16) ::
      hexDig (n / 16 % 16) :: hexDig (n % 16) :: tail) = some (n, tail) := by
  simp only [parseHex4]
  rw [hexVal_hexDig _ (by omega), hexVal_hexDig _ (by omega),
    hexVal_hexDig _ (by omega), hexVal_hexDig _ (by omega)]
  simp only [Option.some_bind, Option.some.injEq, Prod.mk.injEq,
    eq_self_iff_true, and_true]
  omega

theorem parseU_bmp (n : Nat) (hn : n < 65536) (hv : n < 55296 ∨ 57344 ≤ n)
    (tail : List Char) :
    parseU (hexDig (n / 4096) :: hexDig (n / 256 % 16) ::
      hexDig (n / 16 % 16) :: hexDig (n % 16) :: tail) = some (n, tail) := by
  unfold parseU
  rw [parseHex4_digits n hn]
  simp only [Option.some_bind]
  rw [if_pos hv]

theorem parseU_pair (hi lo : Nat) (hhi1 : 55296 ≤ hi) (hhi2 : hi < 56320)
    (hlo1 : 56320 ≤ lo) (hlo2 : lo ≤ 57343) (tail : List Char) :
    parseU (hexDig (hi / 4096) :: hexDig (hi / 256 % 16) ::
      hexDig (hi / 16 % 16) :: hexDig (hi % 16) ::
      '\\' :: 'u' :: hexDig (lo / 4096) :: hexDig (lo / 256 % 16) ::
      hexDig (lo / 16 % 16) :: hexDig (lo % 16) :: tail) =
      some (65536 + (hi - 55296) * 1024 + (lo - 56320), tail) := by
  unfold parseU
  rw [parseHex4_digits hi (by omega)]
  simp only [Option.some_bind]
  rw [if_neg (by omega), if_pos (by omega), parseHex4_digits lo (by omega)]
  simp only [Option.some_bind]
  rw [if_pos ⟨by omega, by omega⟩]

theorem char_ranges (c : Char) :
    c.toNat < 55296 ∨ (57343 < c.toNat ∧ c.toNat < 1114112) := by
  rcases c.valid with h | h
  · exact Or.inl h
  · exact Or.inr h

theorem parseStrBody_escChar (c : Char) (fuel : Nat) (tail : List Char) :
    parseStrBody (fuel + 1) (escChar c ++ tail) =
      (parseStrBody fuel tail).bind fun vr => some (c :: vr.1, vr.2) := by
  by_cases h1 : c = '"'
  · subst h1; rfl
  by_cases h2 : c = '\\'
  · subst h2; rfl
  by_cases h3 : c.toNat = 8
  · rw [← Char.ofNat_toNat c, h3]; rfl
  by_cases h4 : c.toNat = 9
  · rw [← Char.ofNat_toNat c, h4]; rfl
  by_cases h5 : c.toNat = 10
  · rw [← Char.ofNat_toNat c, h5]; rfl
  by_cases h6 : c.toNat = 12
  · rw [← Char.ofNat_toNat c, h6]; rfl
  by_cases h7 : c.toNat = 13
  · rw [← Char.ofNat_toNat c, h7]; rfl
  by_cases h8 : c.toNat < 32
  · have hesc : escChar c = uEscape c.toNat := by
      unfold escChar
      rw [if_neg h1, if_neg h2, if_neg h3, if_neg h4, if_neg h5, if_neg h6,
        if_neg h7, if_pos h8]
    rw [hesc]
    show ((parseU (hexDig (c.toNat / 4096) :: hexDig (c.toNat / 256 % 16) ::
        hexDig (c.toNat / 16 % 16) :: hexDig (c.toNat % 16) :: tail)).bind
        fun nr => (parseStrBody fuel nr.2).bind fun vr =>
          some (Char.ofNat nr.1 :: vr.1, vr.2)) =
      (parseStrBody fuel tail).bind fun vr => some (c :: vr.1, vr.2)
    rw [parseU_bmp c.toNat (by omega) (by omega) tail]
    simp only [Option.some_bind, Char.ofNat_toNat]
  by_cases h9 : c.toNat ≤ 126
  · have hesc : escChar c = [c] := by
      unfold escChar
      rw [if_neg h1, if_neg h2, if_neg h3, if_neg h4, if_neg h5, if_neg h6,
        if_neg h7, if_neg h8, if_pos h9]
    rw [hesc]
    show parseStrBody (fuel + 1) (c :: tail) = _
    simp only [parseStrBody]
    rw [if_neg h1, if_neg h2, if_neg h8]
  by_cases h10 : c.toNat ≤ 65535
  · have hesc : escChar c = uEscape c.toNat := by
      unfold escChar
      rw [if_neg h1, if_neg h2, if_neg h3, if_neg h4, if_neg h5, if_neg h6,
        if_neg h7, if_neg h8, if_neg h9, if_pos h10]
    have hv : c.toNat < 55296 ∨ 57344 ≤ c.toNat := by
      rcases char_ranges c with hr | hr
      · exact Or.inl hr
      · exact Or.inr (by omega)
    rw [hesc]
    show ((parseU (hexDig (c.toNat / 4096) :: hexDig (c.toNat / 256 % 16) ::
        hexDig (c.toNat / 16 % 16) :: hexDig (c.toNat % 16) :: tail)).bind
        fun nr => (parseStrBody fuel nr.2).bind fun vr =>
          some (Char.ofNat nr.1 :: vr.1, vr.2)) =
      (parseStrBody fuel tail).bind fun vr => some (c :: vr.1, vr.2)
    rw [parseU_bmp c.toNat (by omega) hv tail]
    simp only [Option.some_bind, Char.ofNat_toNat]
  · have hlt : c.toNat < 1114112 := by
      rcases char_ranges c with hr | hr
      · omega
      · exact hr.2
    have hesc : escChar c =
        uEscape (55296 + (c.toNat - 65536) / 1024) ++
          uEscape (56320 + (c.toNat - 65536) % 1024) := by
      unfold escChar
      rw [if_neg h1, if_neg h2, if_neg h3, if_neg h4, if_neg h5, if_neg h6,
        if_neg h7, if_neg h8, if_neg h9, if_neg h10]
    rw [hesc]
    show ((parseU (hexDig ((55296 + (c.toNat - 65536) / 1024) / 4096) ::
        hexDig ((55296 + (c.toNat - 65536) / 1024) / 256 % 16) ::
        hexDig ((55296 + (c.toNat - 65536) / 1024) / 16 % 16) ::
        hexDig ((55296 + (c.toNat - 65536) / 1024) % 16) ::
        '\\' :: 'u' ::
        hexDig ((56320 + (c.toNat - 65536) % 1024) / 4096) ::
        hexDig ((56320 + (c.toNat - 65536) % 1024) / 256 % 16) ::
        hexDig ((56320 + (c.toNat - 65536) % 1024) / 16 % 16) ::
        hexDig ((56320 + (c.toNat - 65536) % 1024) % 16) :: tail)).bind
        fun nr => (parseStrBody fuel nr.2).bind fun vr =>
          some (Char.ofNat nr.1 :: vr.1, vr.2)) =
      (parseStrBody fuel tail).bind fun vr => some (c :: vr.1, vr.2)
    rw [parseU_pair (55296 + (c.toNat - 65536) / 1024)
      (56320 + (c.toNat - 65536) % 1024) (by omega) (by omega) (by omega)
      (by omega) tail]
    simp only [Option.some_bind]
    rw [show 65536 + (55296 + (c.toNat - 65536) / 1024 - 55296) * 1024 +
        (56320 + (c.toNat - 65536) % 1024 - 56320) = c.toNat from by omega,
      Char.ofNat_toNat]

theorem parseStrBody_escChars (l : List Char) :
    ∀ fuel rest, l.length < fuel →
      parseStrBody fuel (escChars l ++ '"' :: rest) = some (l, rest) := by
  induction l with
  | nil =>
    intro fuel rest hf
    cases fuel with
    | zero => omega
    | succ f => rfl
  | cons c cs ih =>
    intro fuel rest hf
    cases fuel with
    | zero => omega
    | succ f =>
      rw [show escChars (c :: cs) ++ '"' :: rest =
          escChar c ++ (escChars cs ++ '"' :: rest) from by
        simp [escChars, List.append_assoc]]
      rw [parseStrBody_escChar c f (escChars cs ++ '"' :: rest),
        ih f rest (by simp at hf; omega)]
      rfl

theorem dropLit_append (lit : List Char) :
    ∀ cs, dropLit lit (lit ++ cs) = some cs := by
  induction lit with
  | nil => intro cs; rfl
  | cons l ls ih => intro cs; simp [dropLit, ih]

theorem parseString_emitString (s : String) (fuel : Nat) (rest : List Char)
    (hf : s.data.length < fuel) :
    parseString fuel (emitString s ++ rest) = some (s, rest) := by
  obtain ⟨data⟩ := s
  show parseString fuel ('"' :: (escChars data ++ ['"'] ++ rest)) = _
  rw [show escChars data ++ ['"'] ++ rest =
      escChars data ++ '"' :: rest from by simp]
  show (parseStrBody fuel (escChars data ++ '"' :: rest)).bind
      (fun vr => some (String.mk vr.1, vr.2)) = some (String.mk data, rest)
  rw [parseStrBody_escChars data fuel rest hf]
  rfl

theorem parseOptString_emitOptString (v : Option String) (fuel : Nat)
    (rest : List Char) (hf : ∀ s, v = some s → s.data.length < fuel) :
    parseOptString fuel (emitOptString v ++ rest) = some (v, rest) := by
  cases v with
  | none =>
    show parseOptString fuel ("null".data ++ rest) = _
    unfold parseOptString
    rw [dropLit_append]
  | some s =>
    obtain ⟨data⟩ := s
    show parseOptString fuel ('"' :: (escChars data ++ ['"'] ++ rest)) = _
    unfold parseOptString
    rw [show dropLit "null".data ('"' :: (escChars data ++ ['"'] ++ rest)) =
      none from rfl]
    rw [show ('"' :: (escChars data ++ ['"'] ++ rest)) =
      emitString ⟨data⟩ ++ rest from by simp [emitString]]
    rw [parseString_emitString ⟨data⟩ fuel rest (hf ⟨data⟩ rfl)]
    rfl

set_option maxHeartbeats 1000000 in
theorem escChar_length_pos (c : Char) : 1 ≤ (escChar c).length := by
  unfold escChar
  split_ifs <;> simp [uEscape]

theorem escChars_length (l : List Char) : l.length ≤ (escChars l).length := by
  induction l with
  | nil => simp [escChars]
  | cons c cs ih =>
    have := escChar_length_pos c
    simp only [escChars, List.length_append, List.length_cons]
    omega

theorem emitString_length (s : String) :
    s.data.length + 2 ≤ (emitString s).length := by
  have := escChars_length s.data
  simp only [emitString, List.length_cons, List.length_append,
    List.length_singleton]
  omega

theorem loads_dumps (cfg : MonzoConfig) :
    loadsMonzoConfig (dumpsMonzoConfig cfg) = some cfg := by
  obtain ⟨cid, csec, atk, rtk⟩ := cfg
  unfold loadsMonzoConfig
  simp only [dumpsMonzoConfig, List.append_assoc]
  rw [dropLit_append]
  simp only [Option.some_bind]
  rw [parseString_emitString cid _ _ (by
    simp only [List.length_append]
    have := emitString_length cid
    omega)]
  simp only [Option.some_bind]
  rw [dropLit_append]
  simp only [Option.some_bind]
  rw [parseString_emitString csec _ _ (by
    simp only [List.length_append]
    have := emitString_length csec
    omega)]
  simp only [Option.some_bind]
  rw [dropLit_append]
  simp only [Option.some_bind]
  rw [parseOptString_emitOptString atk _ _ (by
    intro s hs
    subst hs
    simp only [List.length_append, emitOptString]
    have := emitString_length s
    omega)]
  simp only [Option.some_bind]
  rw [dropLit_append]
  simp only [Option.some_bind]
  rw [parseOptString_emitOptString rtk _ _ (by
    intro s hs
    subst hs
    simp only [List.length_append, emitOptString]
    have := emitString_length s
    omega)]
  simp only [Option.some_bind]
  rw [show dropLit "\x7d".data "\x7d".data = some ([] : List Char) from rfl]
  simp only [Option.some_bind]
  rfl

/-! ## C8: the emitted JSON is ASCII, so the byte layer round-trips -/

theorem hexDig_ascii (n : Nat) : (hexDig n).toNat < 128 := by
  by_cases h : n < 16
  · exact (by decide : ∀ i < 16, (hexDig i).toNat < 128) n h
  · unfold hexDig
    rw [List.getD_eq_default]
    · decide
    · simpa [hexDigits] using not_lt.1 h

theorem uEscape_ascii (n : Nat) : ∀ d ∈ uEscape n, d.toNat < 128 := by
  intro d hd
  simp only [uEscape, List.mem_cons, List.not_mem_nil, or_false] at hd
  rcases hd with rfl | rfl | rfl | rfl | rfl | rfl
  · decide
  · decide
  · exact hexDig_ascii _
  · exact hexDig_ascii _
  · exact hexDig_ascii _
  · exact hexDig_ascii _

set_option maxHeartbeats 1000000 in
theorem escChar_ascii (c : Char) : ∀ d ∈ escChar c, d.toNat < 128 := by
  intro d hd
  unfold escChar at hd
  split_ifs at hd with h1 h2 h3 h4 h5 h6 h7 h8 h9 h10
  · rcases (by simpa using hd : d = '\\' ∨ d = '"') with rfl | rfl <;> decide
  · rcases (by simpa using hd : d = '\\' ∨ d = '\\') with rfl | rfl <;> decide
  · rcases (by simpa using hd : d = '\\' ∨ d = 'b') with rfl | rfl <;> decide
  · rcases (by simpa using hd : d = '\\' ∨ d = 't') with rfl | rfl <;> decide
  · rcases (by simpa using hd : d = '\\' ∨ d = 'n') with rfl | rfl <;> decide
  · rcases (by simpa using hd : d = '\\' ∨ d = 'f') with rfl | rfl <;> decide
  · rcases (by simpa using hd : d = '\\' ∨ d = 'r') with rfl | rfl <;> decide
  · exact uEscape_ascii _ d hd
  · rcases (by simpa using hd : d = c) with rfl
    omega
  · exact uEscape_ascii _ d hd
  · rcases List.mem_append.1 hd with hd' | hd'
    · exact uEscape_ascii _ d hd'
    · exact uEscape_ascii _ d hd'

theorem escChars_ascii (l : List Char) : ∀ d ∈ escChars l, d.toNat < 128 := by
  induction l with
  | nil => intro d hd; simp [escChars] at hd
  | cons c cs ih =>
    intro d hd
    rcases List.mem_append.1 (by simpa [escChars] using hd) with hd' | hd'
    · exact escChar_ascii c d hd'
    · exact ih d hd'

theorem emitString_ascii (s : String) :
    ∀ d ∈ emitString s, d.toNat < 128 := by
  intro d hd
  simp only [emitString, List.mem_cons, List.mem_append,
    List.mem_singleton, List.not_mem_nil, or_false] at hd
  rcases hd with rfl | hd' | rfl
  · decide
  · exact escChars_ascii _ d hd'
  · decide

theorem emitOptString_ascii (v : Option String) :
    ∀ d ∈ emitOptString v, d.toNat < 128 := by
  intro d hd
  cases v with
  | none =>
    simp only [emitOptString] at hd
    have : ∀ d ∈ "null".data, d.toNat < 128 := by decide
    exact this d hd
  | some s => exact emitString_ascii s d hd

theorem dumps_ascii (cfg : MonzoConfig) :
    ∀ d ∈ dumpsMonzoConfig cfg, d.toNat < 128 := by
  intro d hd
  simp only [dumpsMonzoConfig, List.append_assoc, List.mem_append] at hd
  rcases hd with hd | hd | hd | hd | hd | hd | hd | hd | hd
  · exact (by decide : ∀ d ∈ ("\x7b\"client_id\": ").data, d.toNat < 128) d hd
  · exact emitString_ascii _ d hd
  · exact (by decide :
      ∀ d ∈ (", \"client_secret\": ").data, d.toNat < 128) d hd
  · exact emitString_ascii _ d hd
  · exact (by decide :
      ∀ d ∈ (", \"access_token\": ").data, d.toNat < 128) d hd
  · exact emitOptString_ascii _ d hd
  · exact (by decide :
      ∀ d ∈ (", \"refresh_token\": ").data, d.toNat < 128) d hd
  · exact emitOptString_ascii _ d hd
  · exact (by decide : ∀ d ∈ ("\x7d").data, d.toNat < 128) d hd

theorem decrypt_encrypt (cfg : MonzoConfig) :
    decrypt_config (encrypt_config cfg) = some cfg := by
  unfold decrypt_config encrypt_config
  rw [show (String.mk (b64encode ((dumpsMonzoConfig cfg).map Char.toNat))).data
    = b64encode ((dumpsMonzoConfig cfg).map Char.toNat) from rfl]
  rw [b64_roundtrip _ (by
    intro b hb
    simp only [List.mem_map] at hb
    obtain ⟨d, hd, rfl⟩ := hb
    have := dumps_ascii cfg d hd
    omega)]
  simp only [Option.some_bind, List.map_map]
  rw [show ((dumpsMonzoConfig cfg).map (Char.ofNat ∘ Char.toNat)) =
      dumpsMonzoConfig cfg from by
    have hfun : (Char.ofNat ∘ Char.toNat) = id := by
      funext c
      exact Char.ofNat_toNat c
    rw [hfun, List.map_id]]
  exact loads_dumps cfg

theorem encrypt_config_ne_empty (cfg : MonzoConfig) :
    encrypt_config cfg ≠ "" := by
  intro h
  have hdata : b64encode ((dumpsMonzoConfig cfg).map Char.toNat) = [] :=
    congrArg String.data h
  have hlen : 0 < (dumpsMonzoConfig cfg).length := by
    simp [dumpsMonzoConfig, List.length_append]
  rcases hbytes : (dumpsMonzoConfig cfg).map Char.toNat with _ | ⟨b, bs⟩
  · have : (dumpsMonzoConfig cfg).length = 0 := by
      have := congrArg List.length hbytes
      simpa using this
    omega
  · rw [hbytes] at hdata
    rcases bs with _ | ⟨b₂, bs₂⟩
    · simp [b64encode] at hdata
    · rcases bs₂ with _ | ⟨b₃, bs₃⟩
      · simp [b64encode] at hdata
      · simp [b64encode] at hdata

/-- C8: a configuration blob saved under the service name is returned
exactly by a subsequent load (the save-then-load round trip through
`encrypt_config`/`decrypt_config`); an absent entry loads as `None`, and
stored data that does not decode also loads as `None` — corruption is
swallowed inside `decrypt_config`, never raised. -/
theorem c8_config_round_trip :
    (∀ cfg kr, load_monzo_config (save_monzo_config cfg kr) = some cfg) ∧
      (∀ kr : Keyring, kr.monzoConfig = none → load_monzo_config kr = none) ∧
      (∀ (kr : Keyring) s, kr.monzoConfig = some s → decrypt_config s = none →
        load_monzo_config kr = none) := by
  refine ⟨?_, ?_, ?_⟩
  · intro cfg kr
    show (if encrypt_config cfg = "" then none
      else decrypt_config (encrypt_config cfg)) = some cfg
    rw [if_neg (encrypt_config_ne_empty cfg)]
    exact decrypt_encrypt cfg
  · intro kr h
    unfold load_monzo_config
    rw [h]
  · intro kr s hs hd
    have hstep : load_monzo_config kr =
        (if s = "" then none else decrypt_config s) := by
      unfold load_monzo_config
      rw [hs]
    rw [hstep]
    by_cases he : s = ""
    · rw [if_pos he]
    · rw [if_neg he, hd]

/-- C8, witness: a concrete blob with characters from every escape class
round-trips, and an absent entry loads as `None`. -/
theorem c8_config_round_trip_witness :
    load_monzo_config (save_monzo_config
        ⟨"oauth2client_1", "s3c\"r\\et\n", some "tok", none⟩
        ⟨none, none⟩) =
      some ⟨"oauth2client_1", "s3c\"r\\et\n", some "tok", none⟩ ∧
      load_monzo_config ⟨none, some "code"⟩ = none :=
  ⟨c8_config_round_trip.1 ⟨"oauth2client_1", "s3c\"r\\et\n", some "tok", none⟩
      ⟨none, none⟩,
    c8_config_round_trip.2.1 ⟨none, some "code"⟩ rfl⟩

/-! ## C7: the one-shot authorization code -/

theorem clear_auth_code_eq (kr : Keyring) :
    clear_auth_code kr = ⟨kr.monzoConfig, none⟩ := by
  obtain ⟨m, a⟩ := kr
  cases a <;> rfl

/-- C7: a successful authorization-code exchange leaves no stored code
behind, and the delete is idempotent — `keyring.delete_password` raises
`PasswordDeleteError` when no code is stored, and `clear_auth_code`
swallows that error instead of propagating it. -/
theorem c7_auth_code_cleared :
    (∀ kr code cid csec resp tok kr',
        exchange_auth_code kr code cid csec resp = .ok (tok, kr') →
        kr'.authCode = none) ∧
      (∀ kr, clear_auth_code (clear_auth_code kr) = clear_auth_code kr) ∧
      (∀ kr : Keyring, kr.authCode = none →
        delete_password_auth_code kr = .error "PasswordDeleteError" ∧
          clear_auth_code kr = kr) := by
  refine ⟨?_, ?_, ?_⟩
  · intro kr code cid csec resp tok kr' h
    unfold exchange_auth_code at h
    rcases hload : load_monzo_config kr with _ | cfg
    · rw [hload] at h
      exact absurd h (by simp)
    · rw [hload] at h
      rcases resp with e | toks
      · exact absurd h (by simp)
      · simp only [Except.ok.injEq, Prod.mk.injEq] at h
        rw [← h.2, clear_auth_code_eq]
  · intro kr
    rw [clear_auth_code_eq, clear_auth_code_eq]
  · intro kr h
    obtain ⟨m, a⟩ := kr
    have ha : a = none := h
    subst ha
    exact ⟨rfl, rfl⟩

/-- C7, witness: a concrete successful exchange against a stored blob
clears the stored one-shot code. -/
theorem c7_auth_code_cleared_witness :
    (clear_auth_code (save_tokens "acc" "ref"
        ⟨some (encrypt_config ⟨"id", "sec", none, none⟩),
          some "one-shot"⟩)).authCode = none :=
  c7_auth_code_cleared.1
    ⟨some (encrypt_config ⟨"id", "sec", none, none⟩), some "one-shot"⟩
    "one-shot" "id" "sec" (.ok ⟨"acc", "ref", 21600⟩) "acc" _ rfl

end MonzoBridge
